import Mathlib

/-!
# TINC: the processor execution graph and the parameter space

A shallow embedding of `ComputationChain::addProcessor` and
`ComputationChain::process` (src/src/ComputationChain.cpp), of the data
members of `Processor` and of `Processor::registerParameter`
(src/include/tinc/Processor.hpp), with nested chains and overlapping
invocations of `process`, and a model of the parameter space and of its
dimensions (grouping by value, current id, common id, path templates, running
paths, re-registration), whose code is not among the sources and which
src/tests/parameterspace.cpp exercises.

Everything a member's `process()` or a callback can read or write is one value
of an arbitrary type `σ`.  Next to it the embedding keeps a log of the calls
the chain makes, oldest first, each with its argument and the value it
returned; member code cannot touch the log.  The mutex `mChainLock` taken by
`addProcessor` has no sequential content and is left out.
-/

namespace tinc

/-- The two values of `ComputationChain::ChainType` that the switch statements
of ComputationChain.cpp distinguish. -/
inductive ChainType where
  | PROCESS_SERIAL
  | PROCESS_ASYNC
  deriving DecidableEq, Repr

/-- One call made on behalf of a chain.  `addr` is the address of the unit
the call is about (for a wrapper: the unit it wraps), `k` the position of a
callback in its registration list. -/
inductive Event where
  /-- A call `chain->process(forceRecompute)` dispatched to a unit. -/
  | process (addr : Nat) (forceRecompute : Bool) (ret : Bool)
  /-- A call `chain->process(forceRecompute)` dispatched to a ProcessorAsync. -/
  | asyncProcess (addr : Nat) (forceRecompute : Bool) (ret : Bool)
  /-- A call `((ProcessorAsync *)chain)->waitUntilDone()`. -/
  | waitUntilDone (addr : Nat) (ret : Bool)
  /-- A call of the k-th registered start callback. -/
  | startCallback (k : Nat)
  /-- A call of `prepareFunction`. -/
  | prepareFunction (ret : Bool)
  /-- A call of the k-th registered done callback with `result`. -/
  | doneCallback (k : Nat) (result : Bool)
  deriving DecidableEq, Repr

/-- The shared state together with the call log. -/
structure World (σ : Type) where
  state : σ
  log : List Event
  deriving DecidableEq

/-- A unit as a chain sees it through a `Processor *`: its address, the two
public flags of Processor.hpp and the pure virtual `process`. -/
structure Processor (σ : Type) where
  addr : Nat
  ignoreFail : Bool := false
  enabled : Bool := true
  process : Bool → σ → Bool × σ

/-- The object built by `new ProcessorAsync(&chain)`: it holds the pointer to
the unit it wraps. -/
structure ProcessorAsync (σ : Type) where
  mProcessor : Processor σ

/-- Modelled from the spec: the class ProcessorAsync (tinc/ProcessorAsync.hpp)
is missing from the sources; its two member functions that a chain calls are
taken as parameters.  `process` starts the wrapped unit without waiting,
`waitUntilDone` blocks until it has finished and yields its outcome. -/
structure AsyncRuntime (σ : Type) where
  process : ProcessorAsync σ → Bool → σ → Bool × σ
  waitUntilDone : ProcessorAsync σ → σ → Bool × σ

/-- An element of `mProcessors`: either the address of the unit that was
handed to `addProcessor`, or the address of a wrapper created there. -/
inductive Member (σ : Type) where
  | direct (p : Processor σ)
  | wrapped (a : ProcessorAsync σ)

/-- The data members of class `Processor` that `ComputationChain::process` can
reach: the identifier, the two public flags, the preparation hook and the two
callback lists. -/
structure ProcessorBase (σ : Type) where
  id : String := ""
  ignoreFail : Bool := false
  enabled : Bool := true
  prepareFunction : Option (σ → Bool × σ) := none
  mStartCallbacks : List (σ → σ) := []
  mDoneCallbacks : List (Bool → σ → σ) := []

/-- The class ComputationChain: a Processor with a type, the member list and
the list of wrappers it has created. -/
structure ComputationChain (σ : Type) extends ProcessorBase σ where
  mType : ChainType := ChainType.PROCESS_SERIAL
  mProcessors : List (Member σ) := []
  mAsyncProcessesInternal : List (ProcessorAsync σ) := []

variable {σ : Type}

/-- The address a member is about. -/
def Member.addr : Member σ → Nat
  | .direct p => p.addr
  | .wrapped a => a.mProcessor.addr

/-- The member is a wrapper created by `addProcessor`. -/
def Member.isWrapped : Member σ → Bool
  | .direct _ => false
  | .wrapped _ => true

/-- ComputationChain.cpp lines 7-20. -/
def ComputationChain.addProcessor (c : ComputationChain σ) (chain : Processor σ) :
    ComputationChain σ :=
  match c.mType with
  | .PROCESS_ASYNC =>
    let internal := c.mAsyncProcessesInternal ++ [ProcessorAsync.mk chain]
    { c with mAsyncProcessesInternal := internal,
             mProcessors := c.mProcessors ++ [Member.wrapped (internal.getLast (by simp [internal]))] }
  | .PROCESS_SERIAL =>
    { c with mProcessors := c.mProcessors ++ [Member.direct chain] }

/-- The log entry of a call `chain->process(forceRecompute)` on a member that
returned `ret`. -/
def Member.processEvent : Member σ → Bool → Bool → Event
  | .direct p, forceRecompute, ret => Event.process p.addr forceRecompute ret
  | .wrapped a, forceRecompute, ret => Event.asyncProcess a.mProcessor.addr forceRecompute ret

/-- The log entry of a call `waitUntilDone()` on a member that returned `ret`. -/
def Member.waitEvent (m : Member σ) (ret : Bool) : Event :=
  Event.waitUntilDone m.addr ret

/-- The entry records a call of a member's `process`. -/
def Event.isMemberProcess : Event → Bool
  | .process _ _ _ => true
  | .asyncProcess _ _ _ => true
  | _ => false

/-- The entry records a call of `waitUntilDone`. -/
def Event.isWait : Event → Bool
  | .waitUntilDone _ _ => true
  | _ => false

/-- The entry records a call of a done callback. -/
def Event.isDoneCallback : Event → Bool
  | .doneCallback _ _ => true
  | _ => false

/-- The entry records a call of a start callback. -/
def Event.isStartCallback : Event → Bool
  | .startCallback _ => true
  | _ => false

/-- The entry records a call of the preparation hook. -/
def Event.isPrepare : Event → Bool
  | .prepareFunction _ => true
  | _ => false

/-- The virtual call `process(forceRecompute)` on a unit: the unit's own code
runs on the shared state and the call is logged with the value it returned. -/
def Processor.call (p : Processor σ) (forceRecompute : Bool) (w : World σ) : Bool × World σ :=
  let r := p.process forceRecompute w.state
  (r.1, { state := r.2, log := w.log ++ [Event.process p.addr forceRecompute r.1] })

/-- The virtual call `chain->process(forceRecompute)` on a member. -/
def Member.process (rt : AsyncRuntime σ) (m : Member σ) (forceRecompute : Bool)
    (w : World σ) : Bool × World σ :=
  match m with
  | .direct p => p.call forceRecompute w
  | .wrapped a =>
    let r := rt.process a forceRecompute w.state
    (r.1, { state := r.2,
            log := w.log ++ [Event.asyncProcess a.mProcessor.addr forceRecompute r.1] })

/-- The call `((ProcessorAsync *)chain)->waitUntilDone()`.  The cast is only
valid for a member that is a wrapper; on any other member there is no
defined result. -/
def Member.waitUntilDone (rt : AsyncRuntime σ) (m : Member σ) (w : World σ) :
    Option (Bool × World σ) :=
  match m with
  | .direct _ => none
  | .wrapped a =>
    let r := rt.waitUntilDone a w.state
    some (r.1, { state := r.2, log := w.log ++ [Event.waitUntilDone a.mProcessor.addr r.1] })

/-- Lines 31-33: `for (auto chain : mProcessors) chain->process(forceRecompute);`
the returned value is dropped. -/
def startLoop (rt : AsyncRuntime σ) (forceRecompute : Bool) :
    List (Member σ) → World σ → World σ
  | [], w => w
  | chain :: rest, w => startLoop rt forceRecompute rest (chain.process rt forceRecompute w).2

/-- Lines 34-36: `for (auto chain : mProcessors)
ret &= ((ProcessorAsync *)chain)->waitUntilDone();` -/
def waitLoop (rt : AsyncRuntime σ) :
    List (Member σ) → Bool → World σ → Option (Bool × World σ)
  | [], ret, w => some (ret, w)
  | chain :: rest, ret, w =>
    match chain.waitUntilDone rt w with
    | none => none
    | some r => waitLoop rt rest (ret && r.1) r.2

/-- Lines 39-41: `for (auto chain : mProcessors)
ret &= chain->process(forceRecompute);` -/
def serialLoop (rt : AsyncRuntime σ) (forceRecompute : Bool) :
    List (Member σ) → Bool → World σ → Bool × World σ
  | [], ret, w => (ret, w)
  | chain :: rest, ret, w =>
    let r := chain.process rt forceRecompute w
    serialLoop rt forceRecompute rest (ret && r.1) r.2

/-- Calls the callbacks of `cbs` with `result`, the one at the head of the list
having position `k`. -/
def doneCallbacksFrom (result : Bool) : List (Bool → σ → σ) → Nat → World σ → World σ
  | [], _, w => w
  | f :: rest, k, w =>
    doneCallbacksFrom result rest (k + 1)
      { state := f result w.state, log := w.log ++ [Event.doneCallback k result] }

/-- Modelled from the spec: `Processor::callDoneCallbacks` is declared in
Processor.hpp and defined in a file missing from the sources; it invokes all
done-callbacks with the boolean outcome, here in registration order. -/
def ProcessorBase.callDoneCallbacks (p : ProcessorBase σ) (result : Bool)
    (w : World σ) : World σ :=
  doneCallbacksFrom result p.mDoneCallbacks 0 w

/-- Calls the callbacks of `cbs`, the one at the head having position `k`. -/
def startCallbacksFrom : List (σ → σ) → Nat → World σ → World σ
  | [], _, w => w
  | f :: rest, k, w =>
    startCallbacksFrom rest (k + 1)
      { state := f w.state, log := w.log ++ [Event.startCallback k] }

/-- Modelled from the spec: `Processor::callStartCallbacks` is declared in
Processor.hpp and defined in a file missing from the sources; it invokes all
registered start-callbacks, here in registration order. -/
def ProcessorBase.callStartCallbacks (p : ProcessorBase σ) (w : World σ) : World σ :=
  startCallbacksFrom p.mStartCallbacks 0 w

/-- ComputationChain.cpp lines 22-46.  The result is `none` only when the cast
of line 35 is applied to a member that is not a wrapper. -/
def ComputationChain.process (rt : AsyncRuntime σ) (c : ComputationChain σ)
    (forceRecompute : Bool) (w : World σ) : Option (Bool × World σ) :=
  if !c.enabled then
    some (true, w)
  else
    let ret := true
    let looped : Option (Bool × World σ) :=
      match c.mType with
      | .PROCESS_ASYNC =>
        waitLoop rt c.mProcessors ret (startLoop rt forceRecompute c.mProcessors w)
      | .PROCESS_SERIAL =>
        some (serialLoop rt forceRecompute c.mProcessors ret w)
    match looped with
    | none => none
    | some r => some (r.1, c.toProcessorBase.callDoneCallbacks r.1 r.2)

/-! ## `Processor::registerParameter` (Processor.hpp lines 200-212)

`V` is the type of configuration values (VariantValue.hpp is not among the
sources) and `ε` stands for every other piece of state of the unit. -/

/-- The type `Processor::Configuration`, a `std::map<std::string, VariantValue>`,
as a finite lookup. -/
abbrev Configuration (V : Type) := String → Option V

/-- The assignment `configuration[key] = value` of a `std::map`: the entry for
`key` is created or overwritten, every other entry is kept. -/
def Configuration.set {V : Type} (cfg : Configuration V) (key : String) (value : V) :
    Configuration V :=
  fun k => if k = key then some value else cfg k

/-- The data members of a Processor that `registerParameter` and its change
callback write: `configuration` and `mParameters` (each registered parameter
is recorded by its name, standing for its address). -/
structure ProcessorData (V ε : Type) where
  configuration : Configuration V
  mParameters : List String
  ext : ε

/-- Modelled from the spec: `al::ParameterWrapper` belongs to the allolib
library and is missing from the sources.  A parameter has a name
(`getName()`), a current value (`get()`) and the change callbacks added with
`registerChangeCallback`; a callback receives the new value and, because the
lambda of `registerParameter` captures the parameter by reference, the
parameter's name at the time of the call. -/
structure ParameterWrapper (V σ : Type) where
  name : String
  value : V
  mChangeCallbacks : List (String → V → World σ → World σ)

/-- Modelled from the spec: a change notification ("value changed") of a
parameter calls every registered change callback with the new value, in
registration order. -/
def ParameterWrapper.notifyChange {V : Type} (param : ParameterWrapper V σ) (value : V)
    (w : World σ) : World σ :=
  param.mChangeCallbacks.foldl (fun acc cb => cb param.name value acc) w

/-- The lambda of Processor.hpp lines 207-210:
`configuration[param.getName()] = value; process();` where `process()` takes
its default argument `forceRecompute = false`. -/
def Processor.changeCallback {V ε : Type} (self : Processor (ProcessorData V ε))
    (paramName : String) (value : V) (w : World (ProcessorData V ε)) :
    World (ProcessorData V ε) :=
  let w1 : World (ProcessorData V ε) :=
    { w with state := { w.state with
        configuration := w.state.configuration.set paramName value } }
  (self.call false w1).2

/-- Processor.hpp lines 203-212: records the parameter, copies its current
value into the configuration and registers the change callback.  Returns the
parameter with its new callback and the updated world. -/
def Processor.registerParameter {V ε : Type} (self : Processor (ProcessorData V ε))
    (param : ParameterWrapper V (ProcessorData V ε)) (w : World (ProcessorData V ε)) :
    ParameterWrapper V (ProcessorData V ε) × World (ProcessorData V ε) :=
  let s1 : ProcessorData V ε :=
    { w.state with mParameters := w.state.mParameters ++ [param.name] }
  let s2 : ProcessorData V ε :=
    { s1 with configuration := s1.configuration.set param.name param.value }
  ({ param with mChangeCallbacks := param.mChangeCallbacks ++ [self.changeCallback] },
   { w with state := s2 })

/-! ## Dimension grouping

The class ParameterSpaceDimension is used by src/tests/parameterspace.cpp but
its code is not among the sources; the part the grouping claims need is
modelled from the specification.  `α` is the type of the domain values, with
decidable equality. -/

/-- The representation kinds `ParameterSpaceDimension::VALUE`, `INDEX` and `ID`
that the tests pass to `newDimension` and `setSpaceRepresentationType`. -/
inductive RepresentationType where
  | VALUE
  | INDEX
  | ID
  deriving DecidableEq, Repr

/-- The error kinds of section 7 of the specification that the operations
modelled here can report. -/
inductive SpaceError where
  | DuplicateName
  | UnknownDimension
  | ShapeMismatch
  | NotFound
  | NoCommonId
  | AmbiguousCommonId
  deriving DecidableEq, Repr

/-- Modelled from the spec: a Dimension (class ParameterSpaceDimension, missing
from the sources) has an ordered `domain` of values, optional `ids` parallel
to it (empty when not set), the derived `groups`, each a value with the domain
positions holding it, and `currentGroupIndex`, its position in the grouped
space; `representationType` is its representation kind and `spacePrefix` the
prefix given to `setSpaceValues`. -/
structure ParameterSpaceDimension (α : Type) where
  name : String := ""
  domain : List α := []
  ids : List String := []
  groups : List (α × List Nat) := []
  currentGroupIndex : Nat := 0
  representationType : RepresentationType := RepresentationType.VALUE
  spacePrefix : String := ""
  deriving DecidableEq

/-- Modelled from the spec: position `i`, which holds value `v`, joins the
group of the positions sharing that value; when no group has the value yet, a
new group is opened after the existing ones. -/
def addPosition {α : Type} [DecidableEq α] (v : α) (i : Nat) :
    List (α × List Nat) → List (α × List Nat)
  | [] => [(v, [i])]
  | (u, ps) :: rest =>
    if u = v then (u, ps ++ [i]) :: rest else (u, ps) :: addPosition v i rest

/-- Modelled from the spec: the domain positions are visited in increasing
order, starting at position `i` with the groups `acc` built so far. -/
def groupFrom {α : Type} [DecidableEq α] :
    List α → Nat → List (α × List Nat) → List (α × List Nat)
  | [], _, acc => acc
  | v :: vs, i, acc => groupFrom vs (i + 1) (addPosition v i acc)

/-- Modelled from the spec: `conform()` (`conformSpace()` in the tests)
recomputes `groups` from the current `domain`, grouping by value equality. -/
def ParameterSpaceDimension.conformSpace {α : Type} [DecidableEq α]
    (d : ParameterSpaceDimension α) : ParameterSpaceDimension α :=
  { d with groups := groupFrom d.domain 0 [] }

/-- Modelled from the spec: `currentIds()` (`getCurrentIds()` in the tests) is
the sequence of the ids at the current group's member positions, in the order
the group lists them. -/
def ParameterSpaceDimension.getCurrentIds {α : Type} (d : ParameterSpaceDimension α) :
    List String :=
  match d.groups[d.currentGroupIndex]? with
  | none => []
  | some grp => grp.2.filterMap (fun i => d.ids[i]?)

/-- The distinct values of a list in the order of their first occurrence. -/
def distinctValues {α : Type} [DecidableEq α] (l : List α) : List α :=
  l.foldl (fun acc v => if v ∈ acc then acc else acc ++ [v]) []

/-- All positions of `l` that hold the value `v`, in increasing order. -/
def positionsOf {α : Type} [DecidableEq α] (l : List α) (v : α) : List Nat :=
  (List.range l.length).filter (fun i => l[i]? = some v)

/-- The dimension `dimension2` of TEST(ParameterSpace, CommonId), lines
380-381, with its values in tenths: 10.1, 10.2, 10.1, 10.2, 10.1, 10.2. -/
def demoDimension2 : ParameterSpaceDimension Int :=
  { name := "dim2", domain := [101, 102, 101, 102, 101, 102],
    ids := ["A", "B", "C", "D", "E", "F"] }

/-! ## Operations on a dimension

Where the specification and an assertion of src/tests/parameterspace.cpp
disagree about an operation, the definition follows the test, which is the
only source code that exercises the operation, and a second definition whose
name ends in `_spec` follows the words of the specification. -/

/-- Modelled from the spec: `size()` is the number of raw domain positions. -/
def ParameterSpaceDimension.size {α : Type} (d : ParameterSpaceDimension α) : Nat :=
  d.domain.length

/-- Modelled from the spec: `setDomain(values)` (`setSpaceValues(values, n,
prefix)` in the tests, missing from the sources) replaces the domain, drops
the ids, recomputes the groups and resets `currentGroupIndex` to 0 when it is
out of range; the tests pass the prefix along with the values. -/
def ParameterSpaceDimension.setSpaceValues {α : Type} [DecidableEq α]
    (d : ParameterSpaceDimension α) (values : List α) (prefixText : String) :
    ParameterSpaceDimension α :=
  { d with domain := values, ids := [], spacePrefix := prefixText,
           groups := groupFrom values 0 [],
           currentGroupIndex :=
             if d.currentGroupIndex < (groupFrom values 0 []).length
             then d.currentGroupIndex else 0 }

/-- Modelled from the spec: `setIds(ids)` (`setSpaceIds(ids)` in the tests,
missing from the sources).  The specification has it fail with ShapeMismatch
when the number of ids differs from the domain size;
TEST(ParameterSpace, DimensionReregister), lines 87-99, sets five ids on a
dimension of four values and reads the five ids back, so the ids are stored as
given, whatever their number. -/
def ParameterSpaceDimension.setSpaceIds {α : Type} (d : ParameterSpaceDimension α)
    (ids : List String) : Except SpaceError (ParameterSpaceDimension α) :=
  Except.ok { d with ids := ids }

/-- The words of the specification for `setIds(ids)`: "requires
`ids.length == domain.length`; fails with `ShapeMismatch` otherwise", leaving
the dimension as it was. -/
def ParameterSpaceDimension.setSpaceIds_spec {α : Type} (d : ParameterSpaceDimension α)
    (ids : List String) : Except SpaceError (ParameterSpaceDimension α) :=
  if ids.length = d.domain.length then Except.ok { d with ids := ids }
  else Except.error SpaceError.ShapeMismatch

/-- Modelled from the spec: `getSpaceIds()` of the tests reads the ids. -/
def ParameterSpaceDimension.getSpaceIds {α : Type} (d : ParameterSpaceDimension α) :
    List String :=
  d.ids

/-- Modelled from the spec: `setCurrentIndex(rawIndex)` locates the group
containing the raw position and makes it the current group; when no group
contains the position it fails with NotFound. -/
def ParameterSpaceDimension.setCurrentIndex {α : Type} (d : ParameterSpaceDimension α)
    (rawIndex : Nat) : Except SpaceError (ParameterSpaceDimension α) :=
  match d.groups.findIdx? (fun grp => grp.2.contains rawIndex) with
  | some g => Except.ok { d with currentGroupIndex := g }
  | none => Except.error SpaceError.NotFound

/-- Modelled from the spec: `setCurrentValue(v)` locates the group whose
positions hold the value `v` (exact match) and makes it the current group;
when the value is absent it fails with NotFound. -/
def ParameterSpaceDimension.setCurrentValue {α : Type} [DecidableEq α]
    (d : ParameterSpaceDimension α) (v : α) : Except SpaceError (ParameterSpaceDimension α) :=
  match d.groups.findIdx? (fun grp => decide (grp.1 = v)) with
  | some g => Except.ok { d with currentGroupIndex := g }
  | none => Except.error SpaceError.NotFound

/-- Modelled from the spec: `stepIncrement()` moves `currentGroupIndex` by +1,
clamped to the last group (a no-op at the boundary). -/
def ParameterSpaceDimension.stepIncrement {α : Type} (d : ParameterSpaceDimension α) :
    ParameterSpaceDimension α :=
  if d.currentGroupIndex + 1 < d.groups.length
  then { d with currentGroupIndex := d.currentGroupIndex + 1 } else d

/-- Modelled from the spec: `currentValue()` is the value shared by the
positions of the current group. -/
def ParameterSpaceDimension.getCurrentValue {α : Type} (d : ParameterSpaceDimension α) :
    Option α :=
  (d.groups[d.currentGroupIndex]?).map (fun grp => grp.1)

/-- Modelled from the spec: the current group's starting raw position (the
position an INDEX token shows). -/
def ParameterSpaceDimension.getCurrentIndex {α : Type} (d : ParameterSpaceDimension α) :
    Option Nat :=
  (d.groups[d.currentGroupIndex]?).bind (fun grp => grp.2.head?)

/-- Modelled from the spec: `currentId()` (`getCurrentId()` in the tests,
missing from the sources).  The specification calls it the last id among the
current group's positions; TEST(ParameterSpace, CommonId), lines 388-394,
asserts "C" where the current ids are C, D and "E" where they are E, F, so it
is the id at the first position of the current group. -/
def ParameterSpaceDimension.getCurrentId {α : Type} (d : ParameterSpaceDimension α) :
    Option String :=
  d.getCurrentIndex.bind (fun i => d.ids[i]?)

/-- The words of the specification for `currentId()`: "the last id (by domain
position order) among the current group's member positions". -/
def ParameterSpaceDimension.getCurrentId_spec {α : Type} (d : ParameterSpaceDimension α) :
    Option String :=
  ((d.groups[d.currentGroupIndex]?).bind (fun grp => grp.2.getLast?)).bind (fun i => d.ids[i]?)

/-- The dimension `dimension1` of TEST(ParameterSpace, CommonId), lines
376-378, after `setSpaceValues`, `setSpaceIds` and `conformSpace`, with its
values in tenths: 0.1, 0.1, 0.2, 0.2, 0.3, 0.3. -/
def demoDimension1 : ParameterSpaceDimension Int :=
  ({ (({ name := "dim1" } : ParameterSpaceDimension Int).setSpaceValues
        [1, 1, 2, 2, 3, 3] "") with ids := ["A", "B", "C", "D", "E", "F"] }
    : ParameterSpaceDimension Int).conformSpace

/-! ## The parameter space

The class ParameterSpace is used by src/tests/parameterspace.cpp but its code
is not among the sources; it is modelled from sections 3, 4.2 and 6 of the
specification, and from the tests where they are more precise. -/

deriving instance DecidableEq for Except

/-- Modelled from the spec: a Space (class ParameterSpace, missing from the
sources) owns its dimensions in registration order, the position of a
dimension in `dimensions` being the stable identity that callers hold; it has
the alias table `parameterNameMap`, a root path and a path template.
`formatValue` is the text of a raw value that the value type determines
(`std::to_string`, six decimals for floating types). -/
structure ParameterSpace (α : Type) where
  dimensions : List (ParameterSpaceDimension α) := []
  parameterNameMap : List (String × String) := []
  rootPath : String := ""
  currentPathTemplate : String := ""
  formatValue : α → String

/-- Modelled from the spec: the canonical name of a dimension name or alias. -/
def ParameterSpace.canonicalName {α : Type} (ps : ParameterSpace α) (name : String) : String :=
  match ps.parameterNameMap.lookup name with
  | some canonical => canonical
  | none => name

/-- Modelled from the spec: `getDimension(nameOrAlias)` resolves the alias and
looks the dimension up by name; it is absent when no dimension has the name. -/
def ParameterSpace.getDimension {α : Type} (ps : ParameterSpace α) (name : String) :
    Option (ParameterSpaceDimension α) :=
  ps.dimensions.find? (fun d => d.name = ps.canonicalName name)

/-- Modelled from the spec: the ids that every one of the id lists contains,
each once, in the order of the first list. -/
def commonIds : List (List String) → List String
  | [] => []
  | first :: others => (distinctValues first).filter (fun s => others.all (fun l => l.contains s))

/-- Modelled from the spec: the single shared id of the id sets; NoCommonId
when the intersection is empty, AmbiguousCommonId when it has more than one
element. -/
def commonId (idSets : List (List String)) : Except SpaceError String :=
  match commonIds idSets with
  | [] => Except.error SpaceError.NoCommonId
  | [s] => Except.ok s
  | _ :: _ :: _ => Except.error SpaceError.AmbiguousCommonId

/-- Modelled from the spec: the dimensions with the given names or aliases, in
the order of the names; an unknown name fails with UnknownDimension. -/
def ParameterSpace.getDimensions {α : Type} (ps : ParameterSpace α) :
    List String → Except SpaceError (List (ParameterSpaceDimension α))
  | [] => Except.ok []
  | name :: names =>
    match ps.getDimension name with
    | none => Except.error SpaceError.UnknownDimension
    | some d =>
      match ps.getDimensions names with
      | Except.error e => Except.error e
      | Except.ok ds => Except.ok (d :: ds)

/-- Modelled from the spec: the dimensions `getCommonId` correlates: the named
ones, or by default all dimensions that currently expose ids. -/
def ParameterSpace.commonIdDimensions {α : Type} (ps : ParameterSpace α)
    (dimensionNames : List String) : Except SpaceError (List (ParameterSpaceDimension α)) :=
  if dimensionNames.isEmpty then
    Except.ok (ps.dimensions.filter (fun d => !d.ids.isEmpty))
  else
    ps.getDimensions dimensionNames

/-- Modelled from the spec: `getCommonId(dimensionNames)` computes the
intersection of `currentIds()` across the dimensions and returns the single
shared id. -/
def ParameterSpace.getCommonId {α : Type} (ps : ParameterSpace α)
    (dimensionNames : List String) : Except SpaceError String :=
  match ps.commonIdDimensions dimensionNames with
  | Except.error e => Except.error e
  | Except.ok dims => commonId (dims.map (fun d => d.getCurrentIds))

/-- Modelled from the spec: `formatToken(representation)` is the text a
dimension contributes to a template: for VALUE the formatted current value,
for INDEX the current group's starting raw position, for ID the prefix
followed by the current id.  Following TEST(ParameterSpace, FilenameTemplate),
lines 168-178, an INDEX token carries no prefix ("1" for the dimension with
prefix "xx") and an ID token of a dimension without ids shows the prefix and
the formatted value ("xx0.200000"). -/
def ParameterSpace.formatToken {α : Type} (ps : ParameterSpace α)
    (d : ParameterSpaceDimension α) (representation : RepresentationType) :
    Except SpaceError String :=
  match representation with
  | RepresentationType.VALUE =>
    match d.getCurrentValue with
    | some v => Except.ok (ps.formatValue v)
    | none => Except.error SpaceError.NotFound
  | RepresentationType.INDEX =>
    match d.getCurrentIndex with
    | some i => Except.ok (toString i)
    | none => Except.error SpaceError.NotFound
  | RepresentationType.ID =>
    match d.getCurrentId with
    | some s => Except.ok (d.spacePrefix ++ s)
    | none =>
      match d.getCurrentValue with
      | some v => Except.ok (d.spacePrefix ++ ps.formatValue v)
      | none => Except.error SpaceError.NotFound

/-- A piece of a path template: literal text, or the inside of a `%%...%%`
token. -/
inductive TemplatePart where
  | text (chars : List Char)
  | token (chars : List Char)
  deriving DecidableEq, Repr

/-- The piece that ends when a `%%` marker is met. -/
def closePart (inToken : Bool) (current : List Char) : TemplatePart :=
  if inToken then TemplatePart.token current else TemplatePart.text current

/-- Modelled from the spec: the scan of a template for `%%...%%` tokens, one
character at a time, left to right.  `inToken` tells whether an opening marker
is waiting for its closing one, `pending` whether a single `%` has just been
read, `current` holds the characters of the piece being read.  An opening
marker that is never closed is kept as literal text. -/
def scanTemplate : List Char → Bool → Bool → List Char → List TemplatePart
  | [], inToken, pending, current =>
    let last := if pending then current ++ ['%'] else current
    if inToken then [TemplatePart.text ('%' :: '%' :: last)] else [TemplatePart.text last]
  | c :: rest, inToken, pending, current =>
    if c = '%' then
      if pending then closePart inToken current :: scanTemplate rest (!inToken) false []
      else scanTemplate rest inToken true current
    else
      scanTemplate rest inToken false (if pending then current ++ ['%', c] else current ++ [c])

/-- The pieces between the commas of a dimension list. -/
def splitNames : List Char → List (List Char)
  | [] => [[]]
  | c :: rest =>
    if c = ',' then [] :: splitNames rest
    else
      match splitNames rest with
      | [] => [[c]]
      | name :: names => (c :: name) :: names

/-- The representation named after the colon of a token, if any. -/
def parseRepresentation (chars : List Char) : Option RepresentationType :=
  if chars = "VALUE".toList then some RepresentationType.VALUE
  else if chars = "INDEX".toList then some RepresentationType.INDEX
  else if chars = "ID".toList then some RepresentationType.ID
  else none

/-- The dimension names of a token `<dimlist>[:<REPR>]`. -/
def tokenNames (token : List Char) : List String :=
  (splitNames (token.takeWhile (fun c => c ≠ ':'))).map String.mk

/-- The representation override of a token `<dimlist>[:<REPR>]`. -/
def tokenRepresentation (token : List Char) : Option RepresentationType :=
  parseRepresentation ((token.dropWhile (fun c => c ≠ ':')).drop 1)

/-- Modelled from the spec: the text that replaces a token.  A
single-dimension token is replaced by `formatToken` with the token's override
or else the dimension's own representation kind; a multi-dimension token by
the common id of the named dimensions, whatever the override; an unknown
dimension name fails with UnknownDimension. -/
def ParameterSpace.resolveToken {α : Type} (ps : ParameterSpace α) (token : List Char) :
    Except SpaceError String :=
  match tokenNames token with
  | [name] =>
    match ps.getDimension name with
    | none => Except.error SpaceError.UnknownDimension
    | some d =>
      ps.formatToken d
        (match tokenRepresentation token with
         | some representation => representation
         | none => d.representationType)
  | names => ps.getCommonId names

/-- The text that a piece of the template contributes. -/
def ParameterSpace.resolvePart {α : Type} (ps : ParameterSpace α) :
    TemplatePart → Except SpaceError String
  | TemplatePart.text chars => Except.ok (String.mk chars)
  | TemplatePart.token chars => ps.resolveToken chars

/-- The texts of the pieces, in order, joined; the first piece that fails
decides the error. -/
def ParameterSpace.resolveParts {α : Type} (ps : ParameterSpace α) :
    List TemplatePart → Except SpaceError String
  | [] => Except.ok ""
  | part :: rest =>
    match ps.resolvePart part with
    | Except.error e => Except.error e
    | Except.ok text =>
      match ps.resolveParts rest with
      | Except.error e => Except.error e
      | Except.ok more => Except.ok (text ++ more)

/-- Modelled from the spec: `resolveTemplate(template)` scans for `%%...%%`
tokens, passes the text outside them through literally and substitutes every
token. -/
def ParameterSpace.resolveTemplate {α : Type} (ps : ParameterSpace α) (template : String) :
    Except SpaceError String :=
  ps.resolveParts (scanTemplate template.toList false false [])

/-- Modelled from the spec: `getCurrentRelativeRunPath()` is
`resolveTemplate(pathTemplate)`. -/
def ParameterSpace.getCurrentRelativeRunPath {α : Type} (ps : ParameterSpace α) :
    Except SpaceError String :=
  ps.resolveTemplate ps.currentPathTemplate

/-- The dimension names that the tokens of the pieces mention. -/
def partNames : List TemplatePart → List String
  | [] => []
  | TemplatePart.text _ :: rest => partNames rest
  | TemplatePart.token chars :: rest => tokenNames chars ++ partNames rest

/-- Modelled from the spec: the canonical names of the dimensions referenced
by the path template. -/
def ParameterSpace.referencedNames {α : Type} (ps : ParameterSpace α) : List String :=
  (partNames (scanTemplate ps.currentPathTemplate.toList false false [])).map ps.canonicalName

/-- Modelled from the spec: all combinations of raw positions for dimensions of
the given sizes, row-major, the first dimension varying slowest. -/
def combinations : List Nat → List (List Nat)
  | [] => [[]]
  | n :: rest => (List.range n).flatMap (fun i => (combinations rest).map (fun c => i :: c))

/-- Modelled from the spec: sets the current index of every referenced
dimension, in registration order, to its position in the combination; the
other dimensions are left as they are. -/
def setCurrentIndices {α : Type} (refs : List String) :
    List (ParameterSpaceDimension α) → List Nat →
      Except SpaceError (List (ParameterSpaceDimension α))
  | [], _ => Except.ok []
  | d :: ds, combo =>
    if refs.contains d.name then
      match combo with
      | [] => Except.error SpaceError.NotFound
      | i :: more =>
        match d.setCurrentIndex i with
        | Except.error e => Except.error e
        | Except.ok d1 =>
          match setCurrentIndices refs ds more with
          | Except.error e => Except.error e
          | Except.ok ds1 => Except.ok (d1 :: ds1)
    else
      match setCurrentIndices refs ds combo with
      | Except.error e => Except.error e
      | Except.ok ds1 => Except.ok (d :: ds1)

/-- Modelled from the spec: `runningPaths()` enumerates the Cartesian product
of the raw domain positions of every dimension referenced by the path
template, in registration order, and for each combination sets those
dimensions' current index and resolves the template, giving one path (or the
error of its resolution) per combination.  The positions left in the space
afterwards are not part of the result. -/
def ParameterSpace.runningPaths {α : Type} (ps : ParameterSpace α) :
    List (Except SpaceError String) :=
  (combinations ((ps.dimensions.filter (fun d => ps.referencedNames.contains d.name)).map
      (fun d => d.size))).map
    (fun combo =>
      match setCurrentIndices ps.referencedNames ps.dimensions combo with
      | Except.error e => Except.error e
      | Except.ok dims =>
        ({ ps with dimensions := dims } : ParameterSpace α).getCurrentRelativeRunPath)

/-- Modelled from the spec: the fields that re-registration copies from the
newly supplied dimension into the existing instance: representation kind,
domain, ids and prefix (the groups follow the new domain). -/
def ParameterSpaceDimension.copyFrom {α : Type} [DecidableEq α]
    (existing dim : ParameterSpaceDimension α) : ParameterSpaceDimension α :=
  { existing with
    representationType := dim.representationType, domain := dim.domain, ids := dim.ids,
    spacePrefix := dim.spacePrefix, groups := groupFrom dim.domain 0 [],
    currentGroupIndex :=
      if existing.currentGroupIndex < (groupFrom dim.domain 0 []).length
      then existing.currentGroupIndex else 0 }

/-- Modelled from the spec: registers `dim` among the dimensions: when a
dimension with its name exists, the new configuration is copied into that
dimension, which stays where it is; else `dim` is stored after the others.
The second component is the position of the dimension that holds the
configuration of `dim`. -/
def registerIn {α : Type} [DecidableEq α] (dim : ParameterSpaceDimension α) :
    List (ParameterSpaceDimension α) → List (ParameterSpaceDimension α) × Nat
  | [] => ([dim], 0)
  | d :: rest =>
    if d.name = dim.name then (d.copyFrom dim :: rest, 0)
    else ((d :: (registerIn dim rest).1), (registerIn dim rest).2 + 1)

/-- Modelled from the spec: `registerDimension(dim)` returns the space after
the registration and the identity (position in `dimensions`) of the instance
it returns to the caller. -/
def ParameterSpace.registerDimension {α : Type} [DecidableEq α] (ps : ParameterSpace α)
    (dim : ParameterSpaceDimension α) : ParameterSpace α × Nat :=
  ({ ps with dimensions := (registerIn dim ps.dimensions).1 }, (registerIn dim ps.dimensions).2)

/-! ## Concrete dimensions and spaces of the tests

Floating-point values of the tests are written as integers: in tenths for
TEST(ParameterSpace, CommonId), in millionths elsewhere. -/

/-- The decimal text of a value given in millionths, with six decimals, as
`std::to_string` prints a float. -/
def formatMillionths (v : Int) : String :=
  (if v < 0 then "-" else "") ++ toString (v.natAbs / 1000000) ++ "."
    ++ String.mk (List.replicate (6 - (toString (v.natAbs % 1000000)).length) '0')
    ++ toString (v.natAbs % 1000000)

/-- The dimension `dim1` of TEST(ParameterSpace, FilenameTemplate): VALUE
representation, current value 0.5.  The test gives it no values of its own;
here 0.5 is its one value. -/
def demoTemplateDim1 : ParameterSpaceDimension Int :=
  ({ name := "dim1" } : ParameterSpaceDimension Int).setSpaceValues [500000] ""

/-- The dimension `dim2` of TEST(ParameterSpace, FilenameTemplate), lines
149-153 and 165: INDEX representation, values 0.1 to 0.5 with prefix "xx",
current value 0.2. -/
def demoTemplateDim2 : ParameterSpaceDimension Int :=
  { (({ name := "dim2", representationType := RepresentationType.INDEX }
        : ParameterSpaceDimension Int).setSpaceValues
        [100000, 200000, 300000, 400000, 500000] "xx") with currentGroupIndex := 1 }

/-- The dimension `dim3` of TEST(ParameterSpace, FilenameTemplate), lines
150-166: ID representation, values 0, 0.01, ..., 0.05 with ids id0 to id5,
current value 0.02. -/
def demoTemplateDim3 : ParameterSpaceDimension Int :=
  { (({ name := "dim3", representationType := RepresentationType.ID }
        : ParameterSpaceDimension Int).setSpaceValues
        [0, 10000, 20000, 30000, 40000, 50000] "") with
    ids := ["id0", "id1", "id2", "id3", "id4", "id5"], currentGroupIndex := 2 }

/-- The space of TEST(ParameterSpace, FilenameTemplate). -/
def demoTemplateSpace : ParameterSpace Int :=
  { dimensions := [demoTemplateDim1, demoTemplateDim2, demoTemplateDim3],
    formatValue := formatMillionths }

/-- The dimension `dim1` of TEST(ParameterSpace, RunningPaths), lines 183-188:
four values. -/
def demoRunningDim1 : ParameterSpaceDimension Int :=
  ({ name := "dim1" } : ParameterSpaceDimension Int).setSpaceValues
    [100000, 200000, 300000, 400000] ""

/-- The dimension `dim2` of TEST(ParameterSpace, RunningPaths), lines 184-191:
INDEX representation, five values, prefix "xx". -/
def demoRunningDim2 : ParameterSpaceDimension Int :=
  ({ name := "dim2", representationType := RepresentationType.INDEX }
    : ParameterSpaceDimension Int).setSpaceValues [100000, 200000, 300000, 400000, 500000] "xx"

/-- The dimension `dim3` of TEST(ParameterSpace, RunningPaths), lines 185-200:
ID representation, six values with ids id0 to id5. -/
def demoRunningDim3 : ParameterSpaceDimension Int :=
  { (({ name := "dim3", representationType := RepresentationType.ID }
        : ParameterSpaceDimension Int).setSpaceValues
        [0, 10000, 20000, 30000, 40000, 50000] "") with
    ids := ["id0", "id1", "id2", "id3", "id4", "id5"] }

/-- A space with the path template of TEST(ParameterSpace, RunningPaths), line
203, which mentions `dim1` and `dim2` only, over the given dimensions. -/
def demoRunningSpaceOf (dims : List (ParameterSpaceDimension Int)) : ParameterSpace Int :=
  { dimensions := dims, currentPathTemplate := "file_%%dim1%%_%%dim2%%",
    formatValue := formatMillionths }

/-- The space of TEST(ParameterSpace, RunningPaths), lines 182-203. -/
def demoRunningSpace : ParameterSpace Int :=
  demoRunningSpaceOf [demoRunningDim1, demoRunningDim2, demoRunningDim3]

/-- The space of TEST(ParameterSpace, CommonId), lines 369-385, with
`dimension1` and `dimension2` at the given groups. -/
def demoCommonSpace (group1 group2 : Nat) : ParameterSpace Int :=
  { dimensions := [{ demoDimension1 with currentGroupIndex := group1 },
                   { demoDimension2.conformSpace with currentGroupIndex := group2 }],
    formatValue := toString }

/-- The dimension `dim1` that TEST(ParameterSpace, DimensionReregister), lines
78-82, registers first: VALUE representation, three values, prefix "prefix". -/
def demoRegisteredDim : ParameterSpaceDimension Int :=
  ({ name := "dim1" } : ParameterSpaceDimension Int).setSpaceValues
    [100000, 200000, 300000] "prefix"

/-- The dimension `newDim` of TEST(ParameterSpace, DimensionReregister), lines
84-88, before its ids are set: the same name, ID representation, four values. -/
def demoFourValues : ParameterSpaceDimension Int :=
  ({ name := "dim1", representationType := RepresentationType.ID }
    : ParameterSpaceDimension Int).setSpaceValues [400000, 500000, 600000, 700000] ""

/-- The dimension `newDim` of TEST(ParameterSpace, DimensionReregister) after
line 89 has set five ids on it. -/
def demoNewDim : ParameterSpaceDimension Int :=
  { demoFourValues with ids := ["A", "B", "C", "C", "E"] }

/-- The space of TEST(ParameterSpace, DimensionReregister) before
`registerDimension(newDim)`: it holds `dim1` at position 0. -/
def demoRegisterSpace : ParameterSpace Int :=
  { dimensions := [demoRegisteredDim], formatValue := formatMillionths }

/-! ## Templates written as a sequence of pieces -/

/-- A piece of a template as its author writes it: literal text, or a token
naming one dimension, with or without a representation override. -/
inductive TemplatePiece where
  | text (s : String)
  | dimension (name : String) (representation : Option RepresentationType)
  deriving DecidableEq, Repr

/-- The name of a representation kind in a token. -/
def RepresentationType.text : RepresentationType → String
  | RepresentationType.VALUE => "VALUE"
  | RepresentationType.INDEX => "INDEX"
  | RepresentationType.ID => "ID"

/-- The characters of a piece in the template: the text itself, `%%name%%`
or `%%name:REPR%%`. -/
def TemplatePiece.chars : TemplatePiece → List Char
  | TemplatePiece.text s => s.toList
  | TemplatePiece.dimension name none => ['%', '%'] ++ name.toList ++ ['%', '%']
  | TemplatePiece.dimension name (some representation) =>
    ['%', '%'] ++ (name.toList ++ ':' :: representation.text.toList) ++ ['%', '%']

/-- The template made of the pieces, in order. -/
def renderPieces (pieces : List TemplatePiece) : String :=
  String.mk (pieces.flatMap TemplatePiece.chars)

/-- Literal text is free of `%`; a dimension name is free of `%`, `:` and `,`. -/
def TemplatePiece.wellFormed : TemplatePiece → Bool
  | TemplatePiece.text s => !s.toList.contains '%'
  | TemplatePiece.dimension name _ =>
    !name.toList.contains '%' && !name.toList.contains ':' && !name.toList.contains ','

/-- What a piece stands for: literal text stands for itself, a dimension
token for the dimension's formatted current position, in the token's
representation when it gives one and in the dimension's own otherwise. -/
def ParameterSpace.pieceText {α : Type} (ps : ParameterSpace α) :
    TemplatePiece → Except SpaceError String
  | TemplatePiece.text s => Except.ok s
  | TemplatePiece.dimension name representation =>
    match ps.getDimension name with
    | none => Except.error SpaceError.UnknownDimension
    | some d =>
      ps.formatToken d
        (match representation with
         | some r => r
         | none => d.representationType)

/-- What the pieces stand for, in order, joined. -/
def ParameterSpace.piecesText {α : Type} (ps : ParameterSpace α) :
    List TemplatePiece → Except SpaceError String
  | [] => Except.ok ""
  | piece :: rest =>
    match ps.pieceText piece with
    | Except.error e => Except.error e
    | Except.ok text =>
      match ps.piecesText rest with
      | Except.error e => Except.error e
      | Except.ok more => Except.ok (text ++ more)

/-- The template `file_%%dim1%%_%%dim2%%_%%dim3%%` of
TEST(ParameterSpace, FilenameTemplate), line 168, as pieces. -/
def demoTemplatePieces : List TemplatePiece :=
  [TemplatePiece.text "file_", TemplatePiece.dimension "dim1" none, TemplatePiece.text "_",
   TemplatePiece.dimension "dim2" none, TemplatePiece.text "_",
   TemplatePiece.dimension "dim3" none]

/-! ## The `ignoreFail` flags of a chain and of its members -/

/-- The member with the public flag `ignoreFail` of its unit set to `flag`. -/
def Member.setIgnoreFail : Member σ → Bool → Member σ
  | Member.direct p, flag => Member.direct { p with ignoreFail := flag }
  | Member.wrapped a, flag => Member.wrapped { mProcessor := { a.mProcessor with ignoreFail := flag } }

/-- The chain with its own `ignoreFail` set to `chainFlag` and the `ignoreFail`
of every member's unit set to `memberFlag` of the unit's address. -/
def ComputationChain.setIgnoreFail (c : ComputationChain σ) (chainFlag : Bool)
    (memberFlag : Nat → Bool) : ComputationChain σ :=
  { c with ignoreFail := chainFlag,
           mProcessors := c.mProcessors.map (fun m => m.setIgnoreFail (memberFlag m.addr)) }

/-- The runtime of the wrappers treats two wrappers alike when their units
differ in `ignoreFail` only. -/
def AsyncRuntime.ignoresIgnoreFail (rt : AsyncRuntime σ) : Prop :=
  ∀ (a : ProcessorAsync σ) (flag : Bool),
    rt.process { mProcessor := { a.mProcessor with ignoreFail := flag } } = rt.process a ∧
    rt.waitUntilDone { mProcessor := { a.mProcessor with ignoreFail := flag } }
      = rt.waitUntilDone a

/-! ## Nested chains

A member of a chain may be a chain itself.  `Node` is a unit or a chain of
type PROCESS_SERIAL with its members, which are nodes again.  The log keeps
the calls that reach units and the callbacks; a call that reaches a nested
chain shows in the log by what that chain does. -/

/-- A unit, or a serial chain (its `Processor` data members and its members in
registration order). -/
inductive Node (σ : Type) where
  | unit (p : Processor σ)
  | chain (base : ProcessorBase σ) (members : List (Node σ))

mutual
/-- The virtual call `process(forceRecompute)` on a node: a unit runs its own
code; a chain runs ComputationChain.cpp lines 22-46 in PROCESS_SERIAL mode,
where each `chain->process(forceRecompute)` of line 40 is again such a call. -/
def Node.process : Node σ → Bool → World σ → Bool × World σ
  | Node.unit p, forceRecompute, w => p.call forceRecompute w
  | Node.chain base members, forceRecompute, w =>
    if !base.enabled then (true, w)
    else
      ((Node.serialLoop members forceRecompute true w).1,
       base.callDoneCallbacks (Node.serialLoop members forceRecompute true w).1
         (Node.serialLoop members forceRecompute true w).2)
/-- Lines 39-41 over members that are nodes. -/
def Node.serialLoop : List (Node σ) → Bool → Bool → World σ → Bool × World σ
  | [], _, ret, w => (ret, w)
  | n :: rest, forceRecompute, ret, w =>
    Node.serialLoop rest forceRecompute (ret && (n.process forceRecompute w).1)
      (n.process forceRecompute w).2
end

mutual
/-- The units of a node in depth-first registration order. -/
def Node.leaves : Node σ → List (Processor σ)
  | Node.unit p => [p]
  | Node.chain _ members => Node.leavesOfList members
/-- The units of a list of nodes in depth-first registration order. -/
def Node.leavesOfList : List (Node σ) → List (Processor σ)
  | [] => []
  | n :: rest => n.leaves ++ Node.leavesOfList rest
end

mutual
/-- Every chain of the node is enabled. -/
def Node.chainsEnabled : Node σ → Bool
  | Node.unit _ => true
  | Node.chain base members => base.enabled && Node.chainsEnabledList members
/-- Every chain of the nodes is enabled. -/
def Node.chainsEnabledList : List (Node σ) → Bool
  | [] => true
  | n :: rest => n.chainsEnabled && Node.chainsEnabledList rest
end

/-- The done callbacks leave the shared state as it is. -/
def ProcessorBase.doneCallbacksInert (base : ProcessorBase σ) : Prop :=
  ∀ cb ∈ base.mDoneCallbacks, ∀ (result : Bool) (s : σ), cb result s = s

mutual
/-- The done callbacks of every chain of the node leave the shared state as it
is. -/
def Node.callbacksInert : Node σ → Prop
  | Node.unit _ => True
  | Node.chain base members => base.doneCallbacksInert ∧ Node.callbacksInertList members
/-- The done callbacks of every chain of the nodes leave the shared state as it
is. -/
def Node.callbacksInertList : List (Node σ) → Prop
  | [] => True
  | n :: rest => n.callbacksInert ∧ Node.callbacksInertList rest
end

/-- The flattened serial chain: the `Processor` data members of the outer
chain and, as members, the units of the nodes, directly. -/
def flattenedChain (base : ProcessorBase σ) (members : List (Node σ)) : ComputationChain σ :=
  { toProcessorBase := base, mType := ChainType.PROCESS_SERIAL,
    mProcessors := (Node.leavesOfList members).map Member.direct }

/-- Two worlds with the same shared state and the same calls of members in
their logs. -/
def World.sameCalls (w1 w2 : World σ) : Prop :=
  w1.state = w2.state ∧
    w1.log.filter Event.isMemberProcess = w2.log.filter Event.isMemberProcess

/-! ## Overlapping invocations of `process`

An invocation of `ComputationChain::process` on a chain of type PROCESS_SERIAL
is cut into atomic steps: entering (the test of line 23), one call of a
member per turn of the loop of lines 39-41, and the done callbacks with the
return (lines 44-45).  Threads interleave at these steps.  Lines 22-46 have
no statement that locks `mProcessLock` (Processor.hpp line 245), so no step
waits for it or changes it. -/

/-- The local variables of one invocation between two steps: whether it has
entered, the members it has still to call, `ret`, and whether it has
returned. -/
structure Invocation (σ : Type) where
  entered : Bool := false
  rest : List (Member σ) := []
  ret : Bool := true
  returned : Bool := false

/-- The invocation has begun and has not returned. -/
def Invocation.inFlight (inv : Invocation σ) : Bool :=
  inv.entered && !inv.returned

/-- One atomic step of an invocation of `process(forceRecompute)` on the
serial chain `c`, on the shared world. -/
def Invocation.step (rt : AsyncRuntime σ) (c : ComputationChain σ) (forceRecompute : Bool)
    (inv : Invocation σ) (w : World σ) : Invocation σ × World σ :=
  if inv.returned then (inv, w)
  else if !inv.entered then
    if !c.enabled then ({ inv with entered := true, ret := true, returned := true }, w)
    else ({ inv with entered := true, ret := true, rest := c.mProcessors }, w)
  else
    match inv.rest with
    | chain :: more =>
      ({ inv with rest := more, ret := inv.ret && (chain.process rt forceRecompute w).1 },
       (chain.process rt forceRecompute w).2)
    | [] => ({ inv with returned := true }, c.toProcessorBase.callDoneCallbacks inv.ret w)

/-- The given number of steps of one invocation running alone. -/
def Invocation.run (rt : AsyncRuntime σ) (c : ComputationChain σ) (forceRecompute : Bool) :
    Nat → Invocation σ → World σ → Invocation σ × World σ
  | 0, inv, w => (inv, w)
  | n + 1, inv, w =>
    Invocation.run rt c forceRecompute n (inv.step rt c forceRecompute w).1
      (inv.step rt c forceRecompute w).2

/-- The chain as the invocations of several threads share it: the world, the
state of `mProcessLock`, the invocations, and for each entry that the run has
added to the log the invocation that made the call. -/
structure SharedRun (σ : Type) where
  world : World σ
  mProcessLockHeld : Bool := false
  invocations : List (Invocation σ)
  owners : List Nat := []

/-- The scheduler gives one step to the invocation `t`. -/
def SharedRun.step (rt : AsyncRuntime σ) (c : ComputationChain σ) (forceRecompute : Bool)
    (s : SharedRun σ) (t : Nat) : SharedRun σ :=
  match s.invocations[t]? with
  | none => s
  | some inv =>
    { s with
      world := (inv.step rt c forceRecompute s.world).2,
      invocations := s.invocations.set t (inv.step rt c forceRecompute s.world).1,
      owners := s.owners ++ List.replicate
        ((inv.step rt c forceRecompute s.world).2.log.length - s.world.log.length) t }

/-- The run under a schedule, which names the invocation that takes each
step. -/
def SharedRun.run (rt : AsyncRuntime σ) (c : ComputationChain σ) (forceRecompute : Bool)
    (s : SharedRun σ) (schedule : List Nat) : SharedRun σ :=
  schedule.foldl (fun acc t => acc.step rt c forceRecompute t) s

/-! ## Concrete chains used to instantiate the theorems -/

/-- A unit at address `a` that adds `a` to a shared counter and reports `ok`. -/
def demoUnit (a : Nat) (ok : Bool) : Processor Nat :=
  { addr := a, process := fun _ s => (ok, s + a) }

/-- A sequential stand-in for ProcessorAsync: starting does nothing and
succeeds, waiting runs the wrapped unit. -/
def demoRuntime : AsyncRuntime Nat :=
  { process := fun _ _ s => (true, s),
    waitUntilDone := fun a s => a.mProcessor.process false s }

/-- An empty chain of the given type with one done callback, which adds 100
to the counter on success and 1000 on failure. -/
def demoEmpty (t : ChainType) : ComputationChain Nat :=
  { mType := t, mDoneCallbacks := [fun r s => if r then s + 100 else s + 1000] }

/-- Three units added to a chain of type `t`; the second one fails. -/
def demoChain (t : ChainType) : ComputationChain Nat :=
  (((demoEmpty t).addProcessor (demoUnit 1 true)).addProcessor (demoUnit 2 false)).addProcessor
    (demoUnit 3 true)

/-- The initial world: counter 0 and an empty log. -/
def demoWorld : World Nat := { state := 0, log := [] }

/-- An enabled serial chain with one registered start callback, which adds 7
to the counter, one member and one done callback. -/
def demoStartChain : ComputationChain Nat :=
  { demoEmpty ChainType.PROCESS_SERIAL with
    mStartCallbacks := [fun s => s + 7],
    mProcessors := [Member.direct (demoUnit 1 true)] }

/-- An enabled serial chain whose preparation hook adds 7 to the counter and
fails, with one member and one done callback. -/
def demoPrepareChain : ComputationChain Nat :=
  { demoEmpty ChainType.PROCESS_SERIAL with
    prepareFunction := some (fun s => (false, s + 7)),
    mProcessors := [Member.direct (demoUnit 1 true)] }

/-- A unit at address `a` that succeeds only while the shared counter is below
100 and leaves the counter as it is. -/
def demoThresholdUnit (a : Nat) : Processor Nat :=
  { addr := a, process := fun _ s => (decide (s < 100), s) }

/-- The members of an outer chain: a nested chain with one unit and one done
callback (which adds 100 to the counter on success), then a unit that fails
once the counter has reached 100. -/
def demoNestedMembers : List (Node Nat) :=
  [Node.chain (demoEmpty ChainType.PROCESS_SERIAL).toProcessorBase [Node.unit (demoUnit 1 true)],
   Node.unit (demoThresholdUnit 2)]

/-- The members of an outer chain: a unit, a nested chain without callbacks
holding two units of which the first fails, and a unit. -/
def demoPlainNestedMembers : List (Node Nat) :=
  [Node.unit (demoUnit 1 true),
   Node.chain {} [Node.unit (demoUnit 2 false), Node.unit (demoUnit 3 true)],
   Node.unit (demoUnit 4 true)]

/-- Two invocations of `process` on the same chain, neither begun yet, on the
initial world. -/
def demoTwoInvocations : SharedRun Nat :=
  { world := demoWorld, invocations := [{}, {}] }

/-! ## The loops of `ComputationChain::process` -/

theorem Member.process_log (rt : AsyncRuntime σ) (m : Member σ) (f : Bool) (w : World σ) :
    (m.process rt f w).2.log = w.log ++ [m.processEvent f (m.process rt f w).1] := by
  cases m <;> rfl

theorem serialLoop_log (rt : AsyncRuntime σ) (f : Bool) (ms : List (Member σ)) :
    ∀ (ret : Bool) (w : World σ), ∃ rets : List Bool,
      rets.length = ms.length ∧
      (serialLoop rt f ms ret w).1 = (ret && rets.all id) ∧
      (serialLoop rt f ms ret w).2.log
        = w.log ++ List.zipWith (fun m r => m.processEvent f r) ms rets := by
  induction ms with
  | nil => intro ret w; exact ⟨[], rfl, by simp [serialLoop], by simp [serialLoop]⟩
  | cons m rest ih =>
    intro ret w
    obtain ⟨rets, hlen, hret, hlog⟩ := ih (ret && (m.process rt f w).1) (m.process rt f w).2
    refine ⟨(m.process rt f w).1 :: rets, by simp [hlen], ?_, ?_⟩
    · simp only [serialLoop, hret, List.all_cons, id, Bool.and_assoc]
    · simp only [serialLoop, hlog, Member.process_log, List.zipWith_cons_cons,
        List.append_assoc, List.singleton_append]

theorem startLoop_log (rt : AsyncRuntime σ) (f : Bool) (ms : List (Member σ)) :
    ∀ (w : World σ), ∃ rets : List Bool,
      rets.length = ms.length ∧
      (startLoop rt f ms w).log
        = w.log ++ List.zipWith (fun m r => m.processEvent f r) ms rets := by
  induction ms with
  | nil => intro w; exact ⟨[], rfl, by simp [startLoop]⟩
  | cons m rest ih =>
    intro w
    obtain ⟨rets, hlen, hlog⟩ := ih (m.process rt f w).2
    refine ⟨(m.process rt f w).1 :: rets, by simp [hlen], ?_⟩
    simp only [startLoop, hlog, Member.process_log, List.zipWith_cons_cons,
      List.append_assoc, List.singleton_append]

theorem waitLoop_log (rt : AsyncRuntime σ) (ms : List (Member σ))
    (hw : ∀ m ∈ ms, m.isWrapped = true) :
    ∀ (ret : Bool) (w : World σ), ∃ (out : Bool × World σ) (rets : List Bool),
      waitLoop rt ms ret w = some out ∧
      rets.length = ms.length ∧
      out.1 = (ret && rets.all id) ∧
      out.2.log = w.log ++ List.zipWith (fun m r => m.waitEvent r) ms rets := by
  induction ms with
  | nil => intro ret w; exact ⟨(ret, w), [], rfl, rfl, by simp, by simp⟩
  | cons m rest ih =>
    intro ret w
    cases m with
    | direct p => simpa [Member.isWrapped] using hw (Member.direct p)
    | wrapped a =>
      obtain ⟨out, rets, hsome, hlen, hret, hlog⟩ :=
        ih (fun m hm => hw m (List.mem_cons_of_mem _ hm))
          (ret && (rt.waitUntilDone a w.state).1)
          { state := (rt.waitUntilDone a w.state).2,
            log := w.log ++ [Event.waitUntilDone a.mProcessor.addr (rt.waitUntilDone a w.state).1] }
      refine ⟨out, (rt.waitUntilDone a w.state).1 :: rets, ?_, by simp [hlen], ?_, ?_⟩
      · simpa [waitLoop, Member.waitUntilDone] using hsome
      · simp only [hret, List.all_cons, id, Bool.and_assoc]
      · simp only [hlog, List.zipWith_cons_cons, List.append_assoc, List.singleton_append,
          Member.waitEvent, Member.addr]

theorem doneCallbacksFrom_log (result : Bool) (cbs : List (Bool → σ → σ)) :
    ∀ (k : Nat) (w : World σ),
      (doneCallbacksFrom result cbs k w).log
        = w.log ++ (List.range' k cbs.length).map (fun i => Event.doneCallback i result) := by
  induction cbs with
  | nil => intro k w; simp [doneCallbacksFrom]
  | cons f rest ih =>
    intro k w
    simp only [doneCallbacksFrom, ih, List.length_cons, List.range'_succ, List.map_cons,
      List.append_assoc, List.singleton_append]

theorem callDoneCallbacks_log (p : ProcessorBase σ) (result : Bool) (w : World σ) :
    (p.callDoneCallbacks result w).log
      = w.log ++ (List.range p.mDoneCallbacks.length).map (fun i => Event.doneCallback i result) := by
  simp [ProcessorBase.callDoneCallbacks, doneCallbacksFrom_log, List.range_eq_range']

theorem countP_processEvents (f : Bool) (p : Event → Bool)
    (hp : ∀ (m : Member σ) (r : Bool), p (m.processEvent f r) = true) (ms : List (Member σ)) :
    ∀ rets : List Bool, rets.length = ms.length →
      (List.zipWith (fun m r => m.processEvent f r) ms rets).countP p = ms.length := by
  induction ms with
  | nil => intro rets _; simp
  | cons m rest ih =>
    intro rets h
    cases rets with
    | nil => simp at h
    | cons r rs => simp [List.countP_cons, hp, ih rs (by simpa using h)]

theorem countP_waitEvents (p : Event → Bool)
    (hp : ∀ (m : Member σ) (r : Bool), p (m.waitEvent r) = true) (ms : List (Member σ)) :
    ∀ rets : List Bool, rets.length = ms.length →
      (List.zipWith (fun m r => m.waitEvent r) ms rets).countP p = ms.length := by
  induction ms with
  | nil => intro rets _; simp
  | cons m rest ih =>
    intro rets h
    cases rets with
    | nil => simp at h
    | cons r rs => simp [List.countP_cons, hp, ih rs (by simpa using h)]

theorem mem_processEvents {f : Bool} {ms : List (Member σ)} {rets : List Bool} {e : Event}
    (h : e ∈ List.zipWith (fun m r => m.processEvent f r) ms rets) :
    ∃ (m : Member σ) (r : Bool), m ∈ ms ∧ e = m.processEvent f r := by
  induction ms generalizing rets with
  | nil => simp at h
  | cons m rest ih =>
    cases rets with
    | nil => simp at h
    | cons r rs =>
      simp only [List.zipWith_cons_cons, List.mem_cons] at h
      rcases h with h | h
      · exact ⟨m, r, List.mem_cons_self _ _, h⟩
      · obtain ⟨m', r', hm, he⟩ := ih h
        exact ⟨m', r', List.mem_cons_of_mem _ hm, he⟩

theorem mem_waitEvents {ms : List (Member σ)} {rets : List Bool} {e : Event}
    (h : e ∈ List.zipWith (fun m r => m.waitEvent r) ms rets) :
    ∃ (m : Member σ) (r : Bool), m ∈ ms ∧ e = m.waitEvent r := by
  induction ms generalizing rets with
  | nil => simp at h
  | cons m rest ih =>
    cases rets with
    | nil => simp at h
    | cons r rs =>
      simp only [List.zipWith_cons_cons, List.mem_cons] at h
      rcases h with h | h
      · exact ⟨m, r, List.mem_cons_self _ _, h⟩
      · obtain ⟨m', r', hm, he⟩ := ih h
        exact ⟨m', r', List.mem_cons_of_mem _ hm, he⟩

/-- The whole log of an enabled serial run: one `process` entry per member in
member order, then one entry per done callback, each with the returned value. -/
theorem process_serial_log (rt : AsyncRuntime σ) (c : ComputationChain σ) (f : Bool)
    (w : World σ) (hen : c.enabled = true) (hs : c.mType = ChainType.PROCESS_SERIAL) :
    ∃ (rets : List Bool) (w' : World σ),
      rets.length = c.mProcessors.length ∧
      c.process rt f w = some (rets.all id, w') ∧
      w'.log = w.log ++ List.zipWith (fun m r => m.processEvent f r) c.mProcessors rets
        ++ (List.range c.mDoneCallbacks.length).map (fun i => Event.doneCallback i (rets.all id)) := by
  obtain ⟨rets, hlen, hret, hlog⟩ := serialLoop_log rt f c.mProcessors true w
  rw [Bool.true_and] at hret
  refine ⟨rets, c.toProcessorBase.callDoneCallbacks (serialLoop rt f c.mProcessors true w).1
    (serialLoop rt f c.mProcessors true w).2, hlen, ?_, ?_⟩
  · simp only [ComputationChain.process, hen, hs, hret]
    rfl
  · rw [callDoneCallbacks_log, hlog, hret]

/-- The whole log of an enabled asynchronous run whose members are wrappers:
one `process` entry per member, then one `waitUntilDone` entry per member,
then one entry per done callback. -/
theorem process_async_log (rt : AsyncRuntime σ) (c : ComputationChain σ) (f : Bool)
    (w : World σ) (hen : c.enabled = true) (ha : c.mType = ChainType.PROCESS_ASYNC)
    (hw : ∀ m ∈ c.mProcessors, m.isWrapped = true) :
    ∃ (srets wrets : List Bool) (w' : World σ),
      srets.length = c.mProcessors.length ∧ wrets.length = c.mProcessors.length ∧
      c.process rt f w = some (wrets.all id, w') ∧
      w'.log = w.log ++ List.zipWith (fun m r => m.processEvent f r) c.mProcessors srets
        ++ List.zipWith (fun m r => m.waitEvent r) c.mProcessors wrets
        ++ (List.range c.mDoneCallbacks.length).map (fun i => Event.doneCallback i (wrets.all id)) := by
  obtain ⟨srets, hslen, hslog⟩ := startLoop_log rt f c.mProcessors w
  obtain ⟨out, wrets, hsome, hwlen, hret, hwlog⟩ :=
    waitLoop_log rt c.mProcessors hw true (startLoop rt f c.mProcessors w)
  rw [Bool.true_and] at hret
  refine ⟨srets, wrets, c.toProcessorBase.callDoneCallbacks out.1 out.2, hslen, hwlen, ?_, ?_⟩
  · simp only [ComputationChain.process, hen, ha, hsome, hret]
    rfl
  · rw [callDoneCallbacks_log, hwlog, hslog, hret]

/-- Adding to an asynchronous chain keeps every member a wrapper, so the cast
of line 35 stays valid on every chain that is built with `addProcessor`. -/
theorem addProcessor_keeps_wrapped (c : ComputationChain σ) (unit : Processor σ)
    (ha : c.mType = ChainType.PROCESS_ASYNC) (hw : ∀ m ∈ c.mProcessors, m.isWrapped = true) :
    (c.addProcessor unit).mType = ChainType.PROCESS_ASYNC ∧
      ∀ m ∈ (c.addProcessor unit).mProcessors, m.isWrapped = true := by
  unfold ComputationChain.addProcessor
  rw [ha]
  refine ⟨rfl, ?_⟩
  intro m hm
  simp only [List.mem_append, List.mem_singleton] at hm
  rcases hm with hm | hm
  · exact hw m hm
  · rw [hm]; rfl

/-! ## The claims about `ComputationChain` -/

/-- C1: for every enabled chain of type PROCESS_SERIAL and every member list,
`process(forceRecompute)` calls each member's `process` exactly once, with that
`forceRecompute`, in the order of the member list, whatever values `rets` the
members return; no call made afterwards is a member call. -/
theorem ComputationChain.process_serial_calls_every_member
    (rt : AsyncRuntime σ) (c : ComputationChain σ) (forceRecompute : Bool) (w : World σ)
    (hen : c.enabled = true) (hs : c.mType = ChainType.PROCESS_SERIAL) :
    ∃ (ret : Bool) (w' : World σ) (rets : List Bool) (tail : List Event),
      c.process rt forceRecompute w = some (ret, w') ∧
      rets.length = c.mProcessors.length ∧
      w'.log = w.log
        ++ List.zipWith (fun m r => m.processEvent forceRecompute r) c.mProcessors rets
        ++ tail ∧
      ∀ e ∈ tail, e.isMemberProcess = false := by
  obtain ⟨rets, w', hlen, hp, hlog⟩ := process_serial_log rt c forceRecompute w hen hs
  refine ⟨_, w', rets, _, hp, hlen, hlog, ?_⟩
  intro e he
  obtain ⟨i, _, rfl⟩ := List.mem_map.mp he
  rfl

/-- The theorem above on the serial chain of three units, the second of which
fails, with `forceRecompute = true`. -/
theorem ComputationChain.process_serial_calls_every_member_witness :
    (demoChain ChainType.PROCESS_SERIAL).enabled = true ∧
    (demoChain ChainType.PROCESS_SERIAL).mType = ChainType.PROCESS_SERIAL ∧
    ∃ (ret : Bool) (w' : World Nat) (rets : List Bool) (tail : List Event),
      (demoChain ChainType.PROCESS_SERIAL).process demoRuntime true demoWorld = some (ret, w') ∧
      rets.length = (demoChain ChainType.PROCESS_SERIAL).mProcessors.length ∧
      w'.log = demoWorld.log
        ++ List.zipWith (fun m r => m.processEvent true r)
            (demoChain ChainType.PROCESS_SERIAL).mProcessors rets
        ++ tail ∧
      ∀ e ∈ tail, e.isMemberProcess = false :=
  ⟨rfl, rfl, ComputationChain.process_serial_calls_every_member demoRuntime
    (demoChain ChainType.PROCESS_SERIAL) true demoWorld rfl rfl⟩

/-- C2: for every enabled chain of type PROCESS_SERIAL, `process` returns the
logical AND of the values `rets` returned by the members in this run: it
returns true if and only if every member returned true, and a chain with no
members returns true. -/
theorem ComputationChain.process_serial_returns_and
    (rt : AsyncRuntime σ) (c : ComputationChain σ) (forceRecompute : Bool) (w : World σ)
    (hen : c.enabled = true) (hs : c.mType = ChainType.PROCESS_SERIAL) :
    ∃ (ret : Bool) (w' : World σ) (rets : List Bool),
      c.process rt forceRecompute w = some (ret, w') ∧
      rets.length = c.mProcessors.length ∧
      w'.log = w.log
        ++ List.zipWith (fun m r => m.processEvent forceRecompute r) c.mProcessors rets
        ++ (List.range c.mDoneCallbacks.length).map (fun i => Event.doneCallback i ret) ∧
      ret = rets.all id ∧
      (ret = true ↔ ∀ r ∈ rets, r = true) ∧
      (c.mProcessors = [] → ret = true) := by
  obtain ⟨rets, w', hlen, hp, hlog⟩ := process_serial_log rt c forceRecompute w hen hs
  refine ⟨_, w', rets, hp, hlen, hlog, rfl, by simp, ?_⟩
  intro hnil
  rw [hnil] at hlen
  rw [List.length_eq_zero.mp hlen]
  rfl

/-- The theorem above on the serial chain of three units, the second of which
fails. -/
theorem ComputationChain.process_serial_returns_and_witness :
    (demoChain ChainType.PROCESS_SERIAL).enabled = true ∧
    (demoChain ChainType.PROCESS_SERIAL).mType = ChainType.PROCESS_SERIAL ∧
    ∃ (ret : Bool) (w' : World Nat) (rets : List Bool),
      (demoChain ChainType.PROCESS_SERIAL).process demoRuntime false demoWorld = some (ret, w') ∧
      rets.length = (demoChain ChainType.PROCESS_SERIAL).mProcessors.length ∧
      w'.log = demoWorld.log
        ++ List.zipWith (fun m r => m.processEvent false r)
            (demoChain ChainType.PROCESS_SERIAL).mProcessors rets
        ++ (List.range (demoChain ChainType.PROCESS_SERIAL).mDoneCallbacks.length).map
            (fun i => Event.doneCallback i ret) ∧
      ret = rets.all id ∧
      (ret = true ↔ ∀ r ∈ rets, r = true) ∧
      ((demoChain ChainType.PROCESS_SERIAL).mProcessors = [] → ret = true) :=
  ⟨rfl, rfl, ComputationChain.process_serial_returns_and demoRuntime
    (demoChain ChainType.PROCESS_SERIAL) false demoWorld rfl rfl⟩

/-- C3: for every enabled chain of type PROCESS_ASYNC whose members are the
wrappers made by `addProcessor`, `process` first calls `process` on every
member in member order, then calls `waitUntilDone` on every member in member
order (so no wait precedes the last start), and returns the logical AND of
the values `wrets` returned by `waitUntilDone`. -/
theorem ComputationChain.process_async_starts_all_then_waits
    (rt : AsyncRuntime σ) (c : ComputationChain σ) (forceRecompute : Bool) (w : World σ)
    (hen : c.enabled = true) (ha : c.mType = ChainType.PROCESS_ASYNC)
    (hw : ∀ m ∈ c.mProcessors, m.isWrapped = true) :
    ∃ (ret : Bool) (w' : World σ) (srets wrets : List Bool) (tail : List Event),
      c.process rt forceRecompute w = some (ret, w') ∧
      srets.length = c.mProcessors.length ∧ wrets.length = c.mProcessors.length ∧
      w'.log = w.log
        ++ List.zipWith (fun m r => m.processEvent forceRecompute r) c.mProcessors srets
        ++ List.zipWith (fun m r => m.waitEvent r) c.mProcessors wrets
        ++ tail ∧
      (∀ e ∈ tail, e.isMemberProcess = false ∧ e.isWait = false) ∧
      ret = wrets.all id := by
  obtain ⟨srets, wrets, w', hs, hwl, hp, hlog⟩ :=
    process_async_log rt c forceRecompute w hen ha hw
  refine ⟨_, w', srets, wrets, _, hp, hs, hwl, hlog, ?_, rfl⟩
  intro e he
  obtain ⟨i, _, rfl⟩ := List.mem_map.mp he
  exact ⟨rfl, rfl⟩

/-- The theorem above on the asynchronous chain of three wrapped units. -/
theorem ComputationChain.process_async_starts_all_then_waits_witness :
    (demoChain ChainType.PROCESS_ASYNC).enabled = true ∧
    (demoChain ChainType.PROCESS_ASYNC).mType = ChainType.PROCESS_ASYNC ∧
    (∀ m ∈ (demoChain ChainType.PROCESS_ASYNC).mProcessors, m.isWrapped = true) ∧
    ∃ (ret : Bool) (w' : World Nat) (srets wrets : List Bool) (tail : List Event),
      (demoChain ChainType.PROCESS_ASYNC).process demoRuntime true demoWorld = some (ret, w') ∧
      srets.length = (demoChain ChainType.PROCESS_ASYNC).mProcessors.length ∧
      wrets.length = (demoChain ChainType.PROCESS_ASYNC).mProcessors.length ∧
      w'.log = demoWorld.log
        ++ List.zipWith (fun m r => m.processEvent true r)
            (demoChain ChainType.PROCESS_ASYNC).mProcessors srets
        ++ List.zipWith (fun m r => m.waitEvent r)
            (demoChain ChainType.PROCESS_ASYNC).mProcessors wrets
        ++ tail ∧
      (∀ e ∈ tail, e.isMemberProcess = false ∧ e.isWait = false) ∧
      ret = wrets.all id :=
  ⟨rfl, rfl, by decide,
    ComputationChain.process_async_starts_all_then_waits demoRuntime
      (demoChain ChainType.PROCESS_ASYNC) true demoWorld rfl rfl (by decide)⟩

/-- C4: when `enabled` is false, `process` returns true in either mode and
leaves the world as it was: the shared state is unchanged and nothing is
added to the call log (no member call, no wait, no callback). -/
theorem ComputationChain.process_disabled_no_effect
    (rt : AsyncRuntime σ) (c : ComputationChain σ) (forceRecompute : Bool) (w : World σ)
    (hdis : c.enabled = false) :
    c.process rt forceRecompute w = some (true, w) := by
  simp [ComputationChain.process, hdis]

/-- The theorem above on the asynchronous chain of three units, disabled. -/
theorem ComputationChain.process_disabled_no_effect_witness :
    ({ demoChain ChainType.PROCESS_ASYNC with enabled := false }
        : ComputationChain Nat).enabled = false ∧
    ({ demoChain ChainType.PROCESS_ASYNC with enabled := false }
        : ComputationChain Nat).process demoRuntime true demoWorld = some (true, demoWorld) :=
  ⟨rfl, ComputationChain.process_disabled_no_effect demoRuntime
    { demoChain ChainType.PROCESS_ASYNC with enabled := false } true demoWorld rfl⟩

/-- C5: for every enabled chain, in both modes, the calls `pre` made before
the done callbacks contain one `process` call per member (and, in
PROCESS_ASYNC mode, one `waitUntilDone` per member) and no done callback;
after them each registered done callback is called exactly once, and the
boolean it receives is the value `ret` that `process` returns. -/
theorem ComputationChain.process_calls_done_callbacks_once
    (rt : AsyncRuntime σ) (c : ComputationChain σ) (forceRecompute : Bool) (w : World σ)
    (hen : c.enabled = true)
    (hw : c.mType = ChainType.PROCESS_ASYNC → ∀ m ∈ c.mProcessors, m.isWrapped = true) :
    ∃ (ret : Bool) (w' : World σ) (pre : List Event),
      c.process rt forceRecompute w = some (ret, w') ∧
      w'.log = w.log ++ pre
        ++ (List.range c.mDoneCallbacks.length).map (fun i => Event.doneCallback i ret) ∧
      (∀ e ∈ pre, e.isDoneCallback = false) ∧
      pre.countP Event.isMemberProcess = c.mProcessors.length ∧
      (c.mType = ChainType.PROCESS_ASYNC → pre.countP Event.isWait = c.mProcessors.length) := by
  cases hm : c.mType with
  | PROCESS_SERIAL =>
    obtain ⟨rets, w', hlen, hp, hlog⟩ := process_serial_log rt c forceRecompute w hen hm
    refine ⟨_, w', _, hp, hlog, ?_, ?_, by simp⟩
    · intro e he
      obtain ⟨m, r, _, rfl⟩ := mem_processEvents he
      cases m <;> rfl
    · exact countP_processEvents forceRecompute _ (fun m r => by cases m <;> rfl) _ rets hlen
  | PROCESS_ASYNC =>
    obtain ⟨srets, wrets, w', hs, hwl, hp, hlog⟩ :=
      process_async_log rt c forceRecompute w hen hm (hw hm)
    refine ⟨_, w', List.zipWith (fun m r => m.processEvent forceRecompute r) c.mProcessors srets
      ++ List.zipWith (fun m r => m.waitEvent r) c.mProcessors wrets, hp,
      by rw [hlog]; simp only [List.append_assoc], ?_, ?_, ?_⟩
    · intro e he
      rcases List.mem_append.mp he with he | he
      · obtain ⟨m, r, _, rfl⟩ := mem_processEvents he
        cases m <;> rfl
      · obtain ⟨m, r, _, rfl⟩ := mem_waitEvents he
        rfl
    · rw [List.countP_append,
        countP_processEvents forceRecompute _ (fun m r => by cases m <;> rfl) _ srets hs]
      have h0 : (List.zipWith (fun m r => m.waitEvent r) c.mProcessors wrets).countP
          Event.isMemberProcess = 0 := by
        rw [List.countP_eq_zero]
        intro e he
        obtain ⟨m, r, _, rfl⟩ := mem_waitEvents he
        simp [Member.waitEvent, Event.isMemberProcess]
      rw [h0]; rfl
    · intro _
      rw [List.countP_append, countP_waitEvents _ (fun m r => rfl) _ wrets hwl]
      have h0 : (List.zipWith (fun m r => m.processEvent forceRecompute r) c.mProcessors
          srets).countP Event.isWait = 0 := by
        rw [List.countP_eq_zero]
        intro e he
        obtain ⟨m, r, _, rfl⟩ := mem_processEvents he
        cases m <;> simp [Member.processEvent, Event.isWait]
      rw [h0]; simp

/-- The theorem above on the asynchronous chain of three wrapped units with
one done callback. -/
theorem ComputationChain.process_calls_done_callbacks_once_witness :
    (demoChain ChainType.PROCESS_ASYNC).enabled = true ∧
    ((demoChain ChainType.PROCESS_ASYNC).mType = ChainType.PROCESS_ASYNC →
      ∀ m ∈ (demoChain ChainType.PROCESS_ASYNC).mProcessors, m.isWrapped = true) ∧
    ∃ (ret : Bool) (w' : World Nat) (pre : List Event),
      (demoChain ChainType.PROCESS_ASYNC).process demoRuntime false demoWorld = some (ret, w') ∧
      w'.log = demoWorld.log ++ pre
        ++ (List.range (demoChain ChainType.PROCESS_ASYNC).mDoneCallbacks.length).map
            (fun i => Event.doneCallback i ret) ∧
      (∀ e ∈ pre, e.isDoneCallback = false) ∧
      pre.countP Event.isMemberProcess = (demoChain ChainType.PROCESS_ASYNC).mProcessors.length ∧
      ((demoChain ChainType.PROCESS_ASYNC).mType = ChainType.PROCESS_ASYNC →
        pre.countP Event.isWait = (demoChain ChainType.PROCESS_ASYNC).mProcessors.length) :=
  ⟨rfl, fun _ => by decide,
    ComputationChain.process_calls_done_callbacks_once demoRuntime
      (demoChain ChainType.PROCESS_ASYNC) false demoWorld rfl (fun _ => by decide)⟩

/-- C6: `addProcessor(unit)` appends exactly one member at the end of the
member list and keeps the members that were there, in their order: in
PROCESS_SERIAL mode the new member is the unit itself, in PROCESS_ASYNC mode
it is a new wrapper around the unit, which is also appended to
`mAsyncProcessesInternal`; nothing else of the chain changes. -/
theorem ComputationChain.addProcessor_appends_one_member
    (c : ComputationChain σ) (unit : Processor σ) :
    (c.addProcessor unit).mProcessors
        = c.mProcessors ++ [match c.mType with
            | ChainType.PROCESS_SERIAL => Member.direct unit
            | ChainType.PROCESS_ASYNC => Member.wrapped (ProcessorAsync.mk unit)] ∧
    (c.addProcessor unit).mAsyncProcessesInternal
        = c.mAsyncProcessesInternal ++ (match c.mType with
            | ChainType.PROCESS_SERIAL => []
            | ChainType.PROCESS_ASYNC => [ProcessorAsync.mk unit]) ∧
    (c.addProcessor unit).mProcessors.length = c.mProcessors.length + 1 ∧
    (c.addProcessor unit).mProcessors.take c.mProcessors.length = c.mProcessors ∧
    (c.addProcessor unit).mType = c.mType ∧
    (c.addProcessor unit).toProcessorBase = c.toProcessorBase := by
  cases hm : c.mType <;> simp [ComputationChain.addProcessor, hm]

/-- C7: evaluation of `process` on an enabled serial chain that has one
registered start callback.  Processor.hpp requires every `process()` to call
`callStartCallbacks()`; the chain runs its member and its done callback, and
the start callback is never called: the counter ends at 1 + 100 and the log
has no start-callback entry, where `callStartCallbacks` would have added 7
and logged one. -/
theorem ComputationChain.process_never_calls_start_callbacks :
    demoStartChain.enabled = true ∧
    demoStartChain.mStartCallbacks.length = 1 ∧
    demoStartChain.process demoRuntime false demoWorld
      = some (true, { state := 101,
                      log := [Event.process 1 false true, Event.doneCallback 0 true] }) ∧
    (demoStartChain.process demoRuntime false demoWorld).map
        (fun r => r.2.log.any Event.isStartCallback) = some false ∧
    demoStartChain.toProcessorBase.callStartCallbacks demoWorld
      = { state := 7, log := [Event.startCallback 0] } := by
  decide

/-- C8: evaluation of `process` on an enabled serial chain whose preparation
hook fails.  Processor.hpp requires every `process()` to call
`prepareFunction()`; the chain never calls the hook, runs its member, calls
the done callback with true and returns true. -/
theorem ComputationChain.process_never_calls_prepareFunction :
    demoPrepareChain.enabled = true ∧
    (demoPrepareChain.prepareFunction.map (fun hook => (hook 0).1)) = some false ∧
    demoPrepareChain.process demoRuntime false demoWorld
      = some (true, { state := 101,
                      log := [Event.process 1 false true, Event.doneCallback 0 true] }) ∧
    (demoPrepareChain.process demoRuntime false demoWorld).map
        (fun r => r.2.log.any Event.isPrepare) = some false := by
  decide

/-! ## The claim about `Processor::registerParameter` -/

/-- C9: for every Processor `self` and every parameter registered with
`registerParameter`, a change notification with `value`, once the callbacks
that were registered on the parameter earlier have run (world `w1`), sets
`configuration[param.getName()]` to `value` and leaves every other key and
the rest of the unit unchanged (state `s1`), and then calls `process` exactly
once, with `forceRecompute = false`, on that state `s1`. -/
theorem Processor.parameter_change_sets_configuration_then_processes {V ε : Type}
    (self : Processor (ProcessorData V ε)) (param : ParameterWrapper V (ProcessorData V ε))
    (w0 : World (ProcessorData V ε)) (value : V) (w : World (ProcessorData V ε)) :
    (self.registerParameter param w0).1.name = param.name ∧
    ∃ (w1 : World (ProcessorData V ε)) (s1 : ProcessorData V ε),
      w1 = param.notifyChange value w ∧
      s1.configuration param.name = some value ∧
      (∀ k : String, k ≠ param.name → s1.configuration k = w1.state.configuration k) ∧
      s1.mParameters = w1.state.mParameters ∧ s1.ext = w1.state.ext ∧
      (self.registerParameter param w0).1.notifyChange value w
        = { state := (self.process false s1).2,
            log := w1.log ++ [Event.process self.addr false (self.process false s1).1] } := by
  refine ⟨rfl, param.notifyChange value w,
    { (param.notifyChange value w).state with
      configuration := (param.notifyChange value w).state.configuration.set param.name value },
    rfl, ?_, ?_, rfl, rfl, ?_⟩
  · simp [Configuration.set]
  · intro k hk
    simp [Configuration.set, hk]
  · simp only [Processor.registerParameter, ParameterWrapper.notifyChange, List.foldl_append,
      List.foldl_cons, List.foldl_nil, Processor.changeCallback, Processor.call]

/-! ## The claim about dimension grouping -/

theorem distinctValues_snoc {α : Type} [DecidableEq α] (l : List α) (v : α) :
    distinctValues (l ++ [v])
      = if v ∈ distinctValues l then distinctValues l else distinctValues l ++ [v] := by
  simp [distinctValues, List.foldl_append]

theorem mem_distinctValues {α : Type} [DecidableEq α] (l : List α) :
    ∀ v : α, v ∈ distinctValues l ↔ v ∈ l := by
  induction l using List.reverseRecOn with
  | nil => simp [distinctValues]
  | append_singleton l u ih =>
    intro v
    rw [distinctValues_snoc]
    by_cases hu : u ∈ distinctValues l
    · rw [if_pos hu, List.mem_append, List.mem_singleton, ih]
      constructor
      · exact Or.inl
      · rintro (h | h)
        · exact h
        · rw [h]; exact (ih u).mp hu
    · rw [if_neg hu]; simp [ih]

theorem nodup_distinctValues {α : Type} [DecidableEq α] (l : List α) :
    (distinctValues l).Nodup := by
  induction l using List.reverseRecOn with
  | nil => simp [distinctValues]
  | append_singleton l u ih =>
    rw [distinctValues_snoc]
    by_cases hu : u ∈ distinctValues l
    · rw [if_pos hu]; exact ih
    · rw [if_neg hu]
      exact List.Nodup.append ih (List.nodup_singleton u) (by simpa using hu)

theorem positionsOf_snoc {α : Type} [DecidableEq α] (l : List α) (v u : α) :
    positionsOf (l ++ [v]) u = positionsOf l u ++ (if v = u then [l.length] else []) := by
  unfold positionsOf
  rw [List.length_append, List.length_singleton, List.range_succ, List.filter_append]
  congr 1
  · apply List.filter_congr
    intro i hi
    rw [List.mem_range] at hi
    rw [List.getElem?_append_left hi]
  · simp [List.filter_cons]

theorem positionsOf_eq_nil {α : Type} [DecidableEq α] (l : List α) (v : α) (h : v ∉ l) :
    positionsOf l v = [] := by
  unfold positionsOf
  rw [List.filter_eq_nil_iff]
  intro i _ hi
  simp only [decide_eq_true_eq] at hi
  exact h (List.getElem?_mem hi)

theorem addPosition_map {α : Type} [DecidableEq α] (v : α) (i : Nat) (P : α → List Nat)
    (L : List α) (hL : L.Nodup) :
    addPosition v i (L.map (fun u => (u, P u)))
      = if v ∈ L then L.map (fun u => (u, P u ++ if v = u then [i] else []))
        else L.map (fun u => (u, P u)) ++ [(v, [i])] := by
  induction L with
  | nil => simp [addPosition]
  | cons u rest ih =>
    have hu : u ∉ rest := (List.nodup_cons.mp hL).1
    have hrest := ih (List.nodup_cons.mp hL).2
    by_cases huv : u = v
    · subst huv
      have hmap : rest.map (fun x => (x, P x ++ if u = x then [i] else []))
          = rest.map (fun x => (x, P x)) := by
        apply List.map_congr_left
        intro x hx
        have : u ≠ x := fun h => hu (h ▸ hx)
        simp [this]
      simp [addPosition, hmap]
    · have hvu : ¬ v = u := fun h => huv h.symm
      by_cases hv : v ∈ rest
      · rw [if_pos hv] at hrest
        simp [addPosition, huv, hvu, hv, hrest]
      · rw [if_neg hv] at hrest
        simp [addPosition, huv, hvu, hv, hrest]

/-- Adding the next position to the groups of a prefix of the domain gives the
groups of the longer prefix. -/
theorem groupFrom_snoc {α : Type} [DecidableEq α] (pre : List α) (v : α) :
    addPosition v pre.length ((distinctValues pre).map (fun u => (u, positionsOf pre u)))
      = (distinctValues (pre ++ [v])).map (fun u => (u, positionsOf (pre ++ [v]) u)) := by
  rw [addPosition_map v pre.length _ _ (nodup_distinctValues pre), distinctValues_snoc]
  simp only [positionsOf_snoc]
  by_cases hv : v ∈ distinctValues pre
  · rw [if_pos hv, if_pos hv]
  · rw [if_neg hv, if_neg hv, List.map_append]
    have hvp : v ∉ pre := fun h => hv ((mem_distinctValues pre v).mpr h)
    congr 1
    · apply List.map_congr_left
      intro x hx
      have : v ≠ x := fun h => hv (h ▸ hx)
      simp [this]
    · simp [positionsOf_eq_nil pre v hvp]

theorem groupFrom_eq {α : Type} [DecidableEq α] (vs : List α) :
    ∀ pre : List α,
      groupFrom vs pre.length ((distinctValues pre).map (fun u => (u, positionsOf pre u)))
        = (distinctValues (pre ++ vs)).map (fun u => (u, positionsOf (pre ++ vs) u)) := by
  induction vs with
  | nil => intro pre; simp [groupFrom]
  | cons v rest ih =>
    intro pre
    have h := ih (pre ++ [v])
    rw [List.length_append, List.length_singleton, List.append_assoc,
      List.singleton_append] at h
    rw [groupFrom, groupFrom_snoc, h]

/-- After `conformSpace` there is one group per distinct value, in
first-occurrence order, each with all positions of its value. -/
theorem conformSpace_groups {α : Type} [DecidableEq α] (d : ParameterSpaceDimension α) :
    d.conformSpace.groups
      = (distinctValues d.domain).map (fun u => (u, positionsOf d.domain u)) := by
  have h := groupFrom_eq d.domain []
  simpa [distinctValues, ParameterSpaceDimension.conformSpace] using h

theorem distinctValues_first_occurrence {α : Type} [DecidableEq α] (l : List α) :
    (distinctValues l).Pairwise (fun u v => l.indexOf u < l.indexOf v) := by
  induction l using List.reverseRecOn with
  | nil => simp [distinctValues]
  | append_singleton l x ih =>
    rw [distinctValues_snoc]
    have hold : (distinctValues l).Pairwise
        (fun u v => (l ++ [x]).indexOf u < (l ++ [x]).indexOf v) := by
      refine List.Pairwise.imp_of_mem ?_ ih
      intro u v hu hv huv
      rw [List.indexOf_append_of_mem ((mem_distinctValues l u).mp hu),
        List.indexOf_append_of_mem ((mem_distinctValues l v).mp hv)]
      exact huv
    by_cases hx : x ∈ distinctValues l
    · rw [if_pos hx]; exact hold
    · rw [if_neg hx, List.pairwise_append]
      refine ⟨hold, List.pairwise_singleton _ _, ?_⟩
      intro u hu v hv
      rw [List.mem_singleton] at hv
      subst hv
      have hxl : v ∉ l := fun h => hx ((mem_distinctValues l v).mpr h)
      rw [List.indexOf_append_of_mem ((mem_distinctValues l u).mp hu),
        List.indexOf_append_of_not_mem hxl]
      have := List.indexOf_lt_length.mpr ((mem_distinctValues l u).mp hu)
      omega

theorem length_positionsOf {α : Type} [DecidableEq α] (l : List α) (v : α) :
    (positionsOf l v).length = l.count v := by
  induction l using List.reverseRecOn with
  | nil => simp [positionsOf]
  | append_singleton l x ih =>
    rw [positionsOf_snoc, List.length_append, ih, List.count_append]
    by_cases hx : x = v
    · simp [hx]
    · simp [List.count_cons, hx]

theorem mem_positionsOf {α : Type} [DecidableEq α] (l : List α) (v : α) (i : Nat) :
    i ∈ positionsOf l v ↔ l[i]? = some v := by
  unfold positionsOf
  rw [List.mem_filter, List.mem_range, decide_eq_true_eq]
  constructor
  · exact fun h => h.2
  · intro h
    exact ⟨(List.getElem?_eq_some_iff.mp h).1, h⟩

theorem filterMap_ids_length (ids : List String) (ps : List Nat)
    (h : ∀ i ∈ ps, i < ids.length) : (ps.filterMap (fun i => ids[i]?)).length = ps.length := by
  induction ps with
  | nil => rfl
  | cons p rest ih =>
    have hp : p < ids.length := h p (List.mem_cons_self _ _)
    rw [List.filterMap_cons, List.getElem?_eq_getElem hp]
    simp [ih (fun i hi => h i (List.mem_cons_of_mem _ hi))]

/-- C10: for every dimension whose ids are parallel to its domain, after
`conformSpace` grouping is purely by value equality: there is one group per
distinct value, the groups are ordered by the first occurrence of their value
in the domain, every domain position belongs to exactly one group, the
positions of a group are all positions (contiguous or not) holding its value,
in increasing order, and `getCurrentIds()` is exactly the ids at those
positions, one per position. -/
theorem ParameterSpaceDimension.conformSpace_groups_by_value {α : Type} [DecidableEq α]
    (d : ParameterSpaceDimension α) (hids : d.ids.length = d.domain.length) :
    d.conformSpace.groups.map Prod.fst = distinctValues d.domain ∧
    (d.conformSpace.groups.map Prod.fst).Nodup ∧
    (d.conformSpace.groups.map Prod.fst).Pairwise
      (fun u v => d.domain.indexOf u < d.domain.indexOf v) ∧
    (∀ i : Nat, i < d.domain.length →
      ∃! g : Nat, ∃ grp : α × List Nat, d.conformSpace.groups[g]? = some grp ∧ i ∈ grp.2) ∧
    (∀ (g : Nat) (grp : α × List Nat), d.conformSpace.groups[g]? = some grp →
      grp.2 = (List.range d.domain.length).filter (fun i => d.domain[i]? = some grp.1)) ∧
    (∀ grp : α × List Nat, d.conformSpace.groups[d.conformSpace.currentGroupIndex]? = some grp →
      d.conformSpace.getCurrentIds
        = ((List.range d.domain.length).filter (fun i => d.domain[i]? = some grp.1)).filterMap
            (fun i => d.ids[i]?) ∧
      d.conformSpace.getCurrentIds.length = d.domain.count grp.1) := by
  have hg := conformSpace_groups d
  have hfst : d.conformSpace.groups.map Prod.fst = distinctValues d.domain := by
    rw [hg, List.map_map]
    exact List.map_id _
  have hgrp : ∀ (g : Nat) (grp : α × List Nat), d.conformSpace.groups[g]? = some grp →
      (distinctValues d.domain)[g]? = some grp.1 ∧ grp.2 = positionsOf d.domain grp.1 := by
    intro g grp h
    rw [hg, List.getElem?_map] at h
    cases hD : (distinctValues d.domain)[g]? with
    | none => rw [hD] at h; simp at h
    | some u =>
      rw [hD] at h
      simp only [Option.map_some', Option.some.injEq] at h
      subst h
      exact ⟨rfl, rfl⟩
  refine ⟨hfst, hfst ▸ nodup_distinctValues _, hfst ▸ distinctValues_first_occurrence _,
    ?_, fun g grp h => (hgrp g grp h).2, ?_⟩
  · intro i hi
    have hv : d.domain[i] ∈ distinctValues d.domain :=
      (mem_distinctValues _ _).mpr (List.getElem_mem hi)
    obtain ⟨g, hglt, hgv⟩ := List.getElem_of_mem hv
    refine ⟨g, ⟨(d.domain[i], positionsOf d.domain d.domain[i]), ?_, ?_⟩, ?_⟩
    · rw [hg, List.getElem?_map, List.getElem?_eq_getElem hglt, hgv]
      rfl
    · exact (mem_positionsOf _ _ _).mpr (List.getElem?_eq_getElem hi)
    · rintro g' ⟨grp, hgrp', hmem⟩
      obtain ⟨hD, hps⟩ := hgrp g' grp hgrp'
      rw [hps, mem_positionsOf, List.getElem?_eq_getElem hi, Option.some.injEq] at hmem
      obtain ⟨hg'lt, hg'v⟩ := List.getElem?_eq_some_iff.mp hD
      have h1 := List.indexOf_getElem (nodup_distinctValues d.domain) g' hg'lt
      have h2 := List.indexOf_getElem (nodup_distinctValues d.domain) g hglt
      rw [hg'v, ← hmem] at h1
      rw [hgv] at h2
      omega
  · intro grp h
    obtain ⟨_, hps⟩ := hgrp _ grp h
    have hcur : d.conformSpace.getCurrentIds
        = (positionsOf d.domain grp.1).filterMap (fun i => d.ids[i]?) := by
      simp only [ParameterSpaceDimension.getCurrentIds, h, hps]
      rfl
    refine ⟨hcur, ?_⟩
    rw [hcur, filterMap_ids_length, length_positionsOf]
    intro i hi
    rw [hids]
    exact (List.getElem?_eq_some_iff.mp ((mem_positionsOf _ _ _).mp hi)).1

/-- The theorem above on `dimension2` of TEST(ParameterSpace, CommonId): at
the initial group the current ids are A, C and E. -/
theorem ParameterSpaceDimension.conformSpace_groups_by_value_witness :
    demoDimension2.ids.length = demoDimension2.domain.length ∧
    demoDimension2.conformSpace.getCurrentIds = ["A", "C", "E"] ∧
    demoDimension2.conformSpace.groups.map Prod.fst = distinctValues demoDimension2.domain :=
  ⟨rfl, by decide,
    (ParameterSpaceDimension.conformSpace_groups_by_value demoDimension2 rfl).1⟩

/-! ## The claims about a dimension's current id and ids -/

/-- After `conformSpace` the group at position `g` holds the `g`-th distinct
value and all positions of that value. -/
theorem conformSpace_group_at {α : Type} [DecidableEq α] (d : ParameterSpaceDimension α)
    (g : Nat) (grp : α × List Nat) (h : d.conformSpace.groups[g]? = some grp) :
    (distinctValues d.domain)[g]? = some grp.1 ∧ grp.2 = positionsOf d.domain grp.1 := by
  rw [conformSpace_groups, List.getElem?_map] at h
  cases hD : (distinctValues d.domain)[g]? with
  | none => rw [hD] at h; simp at h
  | some u =>
    rw [hD] at h
    simp only [Option.map_some', Option.some.injEq] at h
    subst h
    exact ⟨rfl, rfl⟩

theorem positionsOf_increasing {α : Type} [DecidableEq α] (l : List α) (v : α) :
    (positionsOf l v).Pairwise (fun i j => i < j) :=
  List.Pairwise.filter _ (List.pairwise_lt_range l.length)

theorem head_le_of_increasing (ps : List Nat) (h : ps.Pairwise (fun i j => i < j)) (i : Nat)
    (hi : ps.head? = some i) : ∀ j ∈ ps, i ≤ j := by
  cases ps with
  | nil => simp at hi
  | cons p rest =>
    simp only [List.head?_cons, Option.some.injEq] at hi
    subst hi
    intro j hj
    rcases List.mem_cons.mp hj with hj | hj
    · exact Nat.le_of_eq hj.symm
    · exact Nat.le_of_lt (List.rel_of_pairwise_cons h hj)

/-- C11, as amended: for every dimension whose ids are parallel to its domain,
after `conformSpace`, `getCurrentId()` is the first element of
`getCurrentIds()`: it is the id at the current group's first position `i`,
which is the least of the group's positions. -/
theorem ParameterSpaceDimension.getCurrentId_is_first_of_getCurrentIds {α : Type}
    [DecidableEq α] (d : ParameterSpaceDimension α) (hids : d.ids.length = d.domain.length) :
    d.conformSpace.getCurrentId = d.conformSpace.getCurrentIds.head? ∧
    (∀ (grp : α × List Nat) (i : Nat),
      d.conformSpace.groups[d.conformSpace.currentGroupIndex]? = some grp →
      d.conformSpace.getCurrentIndex = some i →
        i ∈ grp.2 ∧ (∀ j ∈ grp.2, i ≤ j) ∧ d.conformSpace.getCurrentId = d.ids[i]?) := by
  constructor
  · unfold ParameterSpaceDimension.getCurrentId ParameterSpaceDimension.getCurrentIndex
      ParameterSpaceDimension.getCurrentIds
    cases hg : d.conformSpace.groups[d.conformSpace.currentGroupIndex]? with
    | none => rfl
    | some grp =>
      obtain ⟨_, hps⟩ := conformSpace_group_at d _ grp hg
      cases hp : grp.2 with
      | nil => simp [hp]
      | cons p rest =>
        have hmem : p ∈ positionsOf d.domain grp.1 := by
          rw [← hps, hp]; exact List.mem_cons_self _ _
        have hlt : p < d.ids.length := by
          rw [hids]
          exact (List.getElem?_eq_some_iff.mp ((mem_positionsOf _ _ _).mp hmem)).1
        have hid : (d.conformSpace.ids)[p]? = some d.ids[p] := List.getElem?_eq_getElem hlt
        simp [hp, hid]
  · intro grp i hg hi
    obtain ⟨_, hps⟩ := conformSpace_group_at d _ grp hg
    have hhead : grp.2.head? = some i := by
      simpa [ParameterSpaceDimension.getCurrentIndex, hg] using hi
    refine ⟨List.mem_of_mem_head? hhead, ?_, ?_⟩
    · exact head_le_of_increasing grp.2 (hps ▸ positionsOf_increasing d.domain grp.1) i hhead
    · simp [ParameterSpaceDimension.getCurrentId, hi]
      rfl

/-- The theorem above on `dimension1` of TEST(ParameterSpace, CommonId) at its
initial group, where the current id is A. -/
theorem ParameterSpaceDimension.getCurrentId_is_first_of_getCurrentIds_witness :
    demoDimension1.ids.length = demoDimension1.domain.length ∧
    demoDimension1.conformSpace.getCurrentId = demoDimension1.conformSpace.getCurrentIds.head? ∧
    demoDimension1.conformSpace.getCurrentId = some "A" :=
  ⟨rfl, (ParameterSpaceDimension.getCurrentId_is_first_of_getCurrentIds demoDimension1 rfl).1,
    by decide⟩

/-- C11, as stated, fails on TEST(ParameterSpace, CommonId), lines 384-400:
after one `stepIncrement` on `dimension1` the current ids are C, D and the
test asserts that `getCurrentId()` is "C", which is not the last element "D"
of `getCurrentIds()` that the words of the specification give; after a second
and a third `stepIncrement` the test asserts "E" with the current ids E, F. -/
theorem ParameterSpaceDimension.getCurrentId_is_not_last :
    demoDimension1.setCurrentIndex 0 = Except.ok demoDimension1 ∧
    demoDimension1.getCurrentIds = ["A", "B"] ∧
    demoDimension1.stepIncrement.getCurrentIds = ["C", "D"] ∧
    demoDimension1.stepIncrement.getCurrentId = some "C" ∧
    demoDimension1.stepIncrement.getCurrentIds.getLast? = some "D" ∧
    demoDimension1.stepIncrement.getCurrentId_spec = some "D" ∧
    demoDimension1.stepIncrement.getCurrentId
      ≠ demoDimension1.stepIncrement.getCurrentIds.getLast? ∧
    demoDimension1.stepIncrement.stepIncrement.getCurrentId = some "E" ∧
    demoDimension1.stepIncrement.stepIncrement.getCurrentIds = ["E", "F"] ∧
    demoDimension1.stepIncrement.stepIncrement.stepIncrement.getCurrentId = some "E" := by
  decide

/-! ## The claim about the common id -/

theorem mem_commonIds (first : List String) (others : List (List String)) (t : String) :
    t ∈ commonIds (first :: others) ↔ ∀ l ∈ first :: others, t ∈ l := by
  simp only [commonIds, List.mem_filter, mem_distinctValues, List.all_eq_true,
    List.contains, List.elem_iff, List.mem_cons, forall_eq_or_imp]

theorem nodup_commonIds (idSets : List (List String)) : (commonIds idSets).Nodup := by
  cases idSets with
  | nil => exact List.nodup_nil
  | cons first others => exact List.Nodup.filter _ (nodup_distinctValues first)

/-- The three outcomes of `commonId` in terms of the intersection of the id
sets. -/
theorem commonId_iff (idSets : List (List String)) (hne : idSets ≠ []) :
    (∀ s : String, commonId idSets = Except.ok s ↔
      ∀ t : String, (∀ l ∈ idSets, t ∈ l) ↔ t = s) ∧
    (commonId idSets = Except.error SpaceError.NoCommonId ↔
      ∀ t : String, ¬ ∀ l ∈ idSets, t ∈ l) ∧
    (commonId idSets = Except.error SpaceError.AmbiguousCommonId ↔
      ∃ s t : String, s ≠ t ∧ (∀ l ∈ idSets, s ∈ l) ∧ (∀ l ∈ idSets, t ∈ l)) := by
  cases idSets with
  | nil => exact absurd rfl hne
  | cons first others =>
    have hmem := mem_commonIds first others
    have hnd := nodup_commonIds (first :: others)
    unfold commonId
    cases hL : commonIds (first :: others) with
    | nil =>
      rw [hL] at hmem
      have hnone : ∀ t : String, ¬ ∀ l ∈ first :: others, t ∈ l :=
        fun t h => List.not_mem_nil t ((hmem t).mpr h)
      refine ⟨fun s => ⟨fun h => by simp at h, fun h => absurd ((h s).mpr rfl) (hnone s)⟩,
        ⟨fun _ => hnone, fun _ => rfl⟩,
        ⟨fun h => by simp at h, fun ⟨s, _, _, hs, _⟩ => absurd hs (hnone s)⟩⟩
    | cons x rest =>
      cases rest with
      | nil =>
        rw [hL] at hmem
        have hx : ∀ t : String, (∀ l ∈ first :: others, t ∈ l) ↔ t = x := by
          intro t; rw [← hmem t, List.mem_singleton]
        refine ⟨fun s => ⟨fun h => ?_, fun h => ?_⟩, ⟨fun h => by simp at h, fun h => ?_⟩,
          ⟨fun h => by simp at h, fun ⟨s, t, hst, hs, ht⟩ => ?_⟩⟩
        · have hxs : x = s := by simpa using h
          intro t; rw [hx t, hxs]
        · have hxs : x = s := (h x).mp ((hx x).mpr rfl)
          simp [hxs]
        · exact absurd ((hx x).mpr rfl) (h x)
        · exact absurd (((hx s).mp hs).trans ((hx t).mp ht).symm) hst
      | cons y more =>
        rw [hL] at hmem hnd
        have hxy : x ≠ y := by
          intro h
          have := (List.nodup_cons.mp hnd).1
          exact this (h ▸ List.mem_cons_self _ _)
        have hIx := (hmem x).mp (List.mem_cons_self _ _)
        have hIy := (hmem y).mp (List.mem_cons_of_mem _ (List.mem_cons_self _ _))
        refine ⟨fun s => ⟨fun h => by simp at h, fun h => ?_⟩,
          ⟨fun h => by simp at h, fun h => absurd hIx (h x)⟩,
          ⟨fun _ => ⟨x, y, hxy, hIx, hIy⟩, fun _ => rfl⟩⟩
        exact absurd (((h x).mp hIx).trans ((h y).mp hIy).symm) hxy

/-- C12: for the dimensions `dims` that `getCommonId` correlates (at least
one), `getCommonId` returns the id `s` exactly when the intersection of their
`getCurrentIds()` sets is the singleton of `s`; it fails with NoCommonId
exactly when the intersection is empty and with AmbiguousCommonId exactly
when it has more than one element. -/
theorem ParameterSpace.getCommonId_singleton_intersection {α : Type} (ps : ParameterSpace α)
    (dimensionNames : List String) (dims : List (ParameterSpaceDimension α))
    (hdims : ps.commonIdDimensions dimensionNames = Except.ok dims) (hne : dims ≠ []) :
    (∀ s : String, ps.getCommonId dimensionNames = Except.ok s ↔
      ∀ t : String, (∀ d ∈ dims, t ∈ d.getCurrentIds) ↔ t = s) ∧
    (ps.getCommonId dimensionNames = Except.error SpaceError.NoCommonId ↔
      ∀ t : String, ¬ ∀ d ∈ dims, t ∈ d.getCurrentIds) ∧
    (ps.getCommonId dimensionNames = Except.error SpaceError.AmbiguousCommonId ↔
      ∃ s t : String, s ≠ t ∧ (∀ d ∈ dims, s ∈ d.getCurrentIds) ∧
        (∀ d ∈ dims, t ∈ d.getCurrentIds)) := by
  have h := commonId_iff (dims.map (fun d => d.getCurrentIds)) (by simpa using hne)
  simp only [List.forall_mem_map] at h
  simpa only [ParameterSpace.getCommonId, hdims] using h

/-- The theorem above on the space of TEST(ParameterSpace, CommonId) with
current ids E, F and B, D, F (line 403, common id F) together with the
evaluation of lines 403-415 of the test. -/
theorem ParameterSpace.getCommonId_singleton_intersection_witness :
    (demoCommonSpace 2 1).commonIdDimensions [] = Except.ok (demoCommonSpace 2 1).dimensions ∧
    (demoCommonSpace 2 1).dimensions ≠ [] ∧
    (demoCommonSpace 2 1).dimensions.map (fun d => d.getCurrentIds)
      = [["E", "F"], ["B", "D", "F"]] ∧
    ((demoCommonSpace 2 1).getCommonId [] = Except.ok "F" ↔
      ∀ t : String, (∀ d ∈ (demoCommonSpace 2 1).dimensions, t ∈ d.getCurrentIds) ↔ t = "F") ∧
    (demoCommonSpace 2 1).getCommonId [] = Except.ok "F" ∧
    (demoCommonSpace 2 0).getCommonId [] = Except.ok "E" ∧
    (demoCommonSpace 1 1).getCommonId [] = Except.ok "D" ∧
    (demoCommonSpace 1 0).getCommonId [] = Except.ok "C" ∧
    (demoCommonSpace 0 1).getCommonId [] = Except.ok "B" ∧
    (demoCommonSpace 0 0).getCommonId [] = Except.ok "A" :=
  ⟨rfl, List.cons_ne_nil _ _, by decide,
    (ParameterSpace.getCommonId_singleton_intersection (demoCommonSpace 2 1) []
      (demoCommonSpace 2 1).dimensions rfl (List.cons_ne_nil _ _)).1 "F",
    by decide, by decide, by decide, by decide, by decide, by decide⟩

/-! ## The claim about template resolution -/

theorem scanTemplate_marker (rest : List Char) (inToken : Bool) (current : List Char) :
    scanTemplate ('%' :: '%' :: rest) inToken false current
      = closePart inToken current :: scanTemplate rest (!inToken) false [] := by
  simp [scanTemplate]

theorem scanTemplate_plain (s : List Char) (hs : ∀ c ∈ s, c ≠ '%') :
    ∀ (rest : List Char) (inToken : Bool) (current : List Char),
      scanTemplate (s ++ rest) inToken false current
        = scanTemplate rest inToken false (current ++ s) := by
  induction s with
  | nil => intro rest inToken current; simp
  | cons c s ih =>
    intro rest inToken current
    have hc : c ≠ '%' := hs c (List.mem_cons_self _ _)
    have h := ih (fun x hx => hs x (List.mem_cons_of_mem _ hx)) rest inToken (current ++ [c])
    rw [List.append_assoc, List.singleton_append] at h
    rw [← h]
    simp [scanTemplate, hc]

theorem splitNames_plain (s : List Char) (hs : ∀ c ∈ s, c ≠ ',') : splitNames s = [s] := by
  induction s with
  | nil => rfl
  | cons c s ih =>
    have hc : c ≠ ',' := hs c (List.mem_cons_self _ _)
    simp [splitNames, hc, ih (fun x hx => hs x (List.mem_cons_of_mem _ hx))]

theorem takeWhile_plain (s rest : List Char) (hs : ∀ c ∈ s, c ≠ ':') :
    (s ++ ':' :: rest).takeWhile (fun c => c ≠ ':') = s := by
  rw [List.takeWhile_append_of_pos (fun c hc => by simpa using hs c hc),
    List.takeWhile_cons_of_neg (by simp), List.append_nil]

theorem takeWhile_all (s : List Char) (hs : ∀ c ∈ s, c ≠ ':') :
    s.takeWhile (fun c => c ≠ ':') = s :=
  List.takeWhile_eq_self_iff.mpr (fun c hc => by simpa using hs c hc)

theorem dropWhile_plain (s rest : List Char) (hs : ∀ c ∈ s, c ≠ ':') :
    (s ++ ':' :: rest).dropWhile (fun c => c ≠ ':') = ':' :: rest := by
  rw [List.dropWhile_append_of_pos (fun c hc => by simpa using hs c hc),
    List.dropWhile_cons_of_neg (by simp)]

theorem dropWhile_all (s : List Char) (hs : ∀ c ∈ s, c ≠ ':') :
    s.dropWhile (fun c => c ≠ ':') = [] :=
  List.dropWhile_eq_nil_iff.mpr (fun c hc => by simpa using hs c hc)

theorem parseRepresentation_text (r : RepresentationType) :
    parseRepresentation r.text.toList = some r := by
  cases r <;> decide

theorem representation_text_plain (r : RepresentationType) :
    ∀ c ∈ r.text.toList, c ≠ '%' := by
  cases r <;> decide

/-- The characters between the markers of a dimension token. -/
theorem resolveToken_dimension {α : Type} (ps : ParameterSpace α) (name : String)
    (representation : Option RepresentationType)
    (hcolon : ∀ c ∈ name.toList, c ≠ ':') (hcomma : ∀ c ∈ name.toList, c ≠ ',') :
    ps.resolveToken
        (match representation with
         | none => name.toList
         | some r => name.toList ++ ':' :: r.text.toList)
      = ps.pieceText (TemplatePiece.dimension name representation) := by
  cases representation with
  | none =>
    simp only [ParameterSpace.resolveToken, tokenNames, tokenRepresentation,
      takeWhile_all _ hcolon, dropWhile_all _ hcolon, splitNames_plain _ hcomma,
      List.map_cons, List.map_nil, List.drop_nil, ParameterSpace.pieceText]
    rfl
  | some r =>
    simp only [ParameterSpace.resolveToken, tokenNames, tokenRepresentation,
      takeWhile_plain _ _ hcolon, dropWhile_plain _ _ hcolon, splitNames_plain _ hcomma,
      List.map_cons, List.map_nil, List.drop_succ_cons, List.drop_zero,
      parseRepresentation_text, ParameterSpace.pieceText]
    rfl

theorem resolveParts_scan_pieces {α : Type} (ps : ParameterSpace α)
    (pieces : List TemplatePiece) (hwf : ∀ p ∈ pieces, p.wellFormed = true) :
    ∀ current : List Char,
      ps.resolveParts (scanTemplate (pieces.flatMap TemplatePiece.chars) false false current)
        = match ps.piecesText pieces with
          | Except.error e => Except.error e
          | Except.ok text => Except.ok (String.mk current ++ text) := by
  induction pieces with
  | nil =>
    intro current
    simp [scanTemplate, ParameterSpace.resolveParts, ParameterSpace.resolvePart,
      ParameterSpace.piecesText]
  | cons piece rest ih =>
    intro current
    have hrest := ih (fun p hp => hwf p (List.mem_cons_of_mem _ hp))
    have hpiece := hwf piece (List.mem_cons_self _ _)
    cases piece with
    | text s =>
      have hs : ∀ c ∈ s.toList, c ≠ '%' := by
        intro c hc h
        have hmem : '%' ∉ s.toList := by simpa [TemplatePiece.wellFormed] using hpiece
        exact hmem (h ▸ hc)
      rw [List.flatMap_cons, TemplatePiece.chars, scanTemplate_plain _ hs, hrest]
      simp only [ParameterSpace.piecesText, ParameterSpace.pieceText]
      cases ps.piecesText rest with
      | error e => rfl
      | ok more =>
        show Except.ok (String.mk (current ++ s.toList) ++ more)
          = Except.ok (String.mk current ++ (s ++ more))
        rw [← String.append_assoc]
        rfl
    | dimension name representation =>
      simp only [TemplatePiece.wellFormed, Bool.and_eq_true, Bool.not_eq_true',
        List.contains_eq_any_beq, List.any_eq_false, beq_iff_eq] at hpiece
      obtain ⟨⟨hpct, hcolon⟩, hcomma⟩ := hpiece
      have hpct' : ∀ c ∈ name.toList, c ≠ '%' := fun c hc h => hpct c hc h.symm
      have hcolon' : ∀ c ∈ name.toList, c ≠ ':' := fun c hc h => hcolon c hc h.symm
      have hcomma' : ∀ c ∈ name.toList, c ≠ ',' := fun c hc h => hcomma c hc h.symm
      have htok := resolveToken_dimension ps name representation hcolon' hcomma'
      have hplain : ∀ c ∈ (match representation with
          | none => name.toList
          | some r => name.toList ++ ':' :: r.text.toList), c ≠ '%' := by
        cases representation with
        | none => exact hpct'
        | some r =>
          intro c hc
          rcases List.mem_append.mp hc with h | h
          · exact hpct' c h
          · rcases List.mem_cons.mp h with h | h
            · rw [h]; decide
            · exact representation_text_plain r c h
      have hchars : (TemplatePiece.dimension name representation).chars
          = '%' :: '%' :: ((match representation with
              | none => name.toList
              | some r => name.toList ++ ':' :: r.text.toList) ++ ['%', '%']) := by
        cases representation <;> rfl
      rw [List.flatMap_cons, hchars]
      simp only [List.cons_append, List.append_assoc, List.nil_append]
      rw [scanTemplate_marker, scanTemplate_plain _ hplain, scanTemplate_marker]
      simp only [closePart, Bool.false_eq_true, if_false, if_true, Bool.not_false,
        Bool.not_true, List.nil_append, ParameterSpace.resolveParts,
        ParameterSpace.resolvePart, htok, hrest, ParameterSpace.piecesText]
      cases ps.pieceText (TemplatePiece.dimension name representation) with
      | error e => rfl
      | ok text =>
        cases ps.piecesText rest with
        | error e => rfl
        | ok more =>
          show Except.ok (String.mk current ++ (text ++ (String.mk [] ++ more)))
            = Except.ok (String.mk current ++ (text ++ more))
          rfl

/-- C13: for every template made of literal text free of `%` and of
single-dimension tokens `%%name%%` or `%%name:REPR%%` (names free of `%`,
`:` and `,`), `resolveTemplate` gives the pieces in order and joined: the text
outside tokens copied literally, every token replaced by the formatted
current position of its dimension, in the representation the token names
(VALUE, INDEX or ID) and, without one, in the dimension's own representation
kind; the first unknown dimension fails the resolution. -/
theorem ParameterSpace.resolveTemplate_pieces {α : Type} (ps : ParameterSpace α)
    (pieces : List TemplatePiece) (hwf : ∀ p ∈ pieces, p.wellFormed = true) :
    ps.resolveTemplate (renderPieces pieces) = ps.piecesText pieces := by
  have h := resolveParts_scan_pieces ps pieces hwf []
  show ps.resolveParts (scanTemplate (pieces.flatMap TemplatePiece.chars) false false []) = _
  rw [h]
  cases ps.piecesText pieces with
  | error e => rfl
  | ok text => rfl

/-- The theorem above on `file_%%dim1%%_%%dim2%%_%%dim3%%` in the space of
TEST(ParameterSpace, FilenameTemplate), with the results of lines 168-178 of
the test. -/
theorem ParameterSpace.resolveTemplate_pieces_witness :
    (∀ p ∈ demoTemplatePieces, p.wellFormed = true) ∧
    demoTemplateDim1.setCurrentValue 500000 = Except.ok demoTemplateDim1 ∧
    demoTemplateDim2.setCurrentValue 200000 = Except.ok demoTemplateDim2 ∧
    demoTemplateDim3.setCurrentValue 20000 = Except.ok demoTemplateDim3 ∧
    renderPieces demoTemplatePieces = "file_%%dim1%%_%%dim2%%_%%dim3%%" ∧
    demoTemplateSpace.resolveTemplate (renderPieces demoTemplatePieces)
      = demoTemplateSpace.piecesText demoTemplatePieces ∧
    demoTemplateSpace.resolveTemplate "file_%%dim1%%_%%dim2%%_%%dim3%%"
      = Except.ok "file_0.500000_1_id2" ∧
    demoTemplateSpace.resolveTemplate "file_%%dim2:VALUE%%_%%dim3:VALUE%%"
      = Except.ok "file_0.200000_0.020000" ∧
    demoTemplateSpace.resolveTemplate "file_%%dim2:ID%%_%%dim3:ID%%"
      = Except.ok "file_xx0.200000_id2" ∧
    demoTemplateSpace.resolveTemplate "file_%%dim2:INDEX%%_%%dim3:INDEX%%"
      = Except.ok "file_1_2" :=
  ⟨by decide, by decide, by decide, by decide, by decide,
    ParameterSpace.resolveTemplate_pieces demoTemplateSpace demoTemplatePieces (by decide),
    by decide, by decide, by decide, by decide⟩

/-! ## The claim about the running paths -/

theorem length_combinations (sizes : List Nat) : (combinations sizes).length = sizes.prod := by
  induction sizes with
  | nil => rfl
  | cons n rest ih =>
    have h : ∀ l : List Nat,
        (l.flatMap (fun i => (combinations rest).map (fun c => i :: c))).length
          = l.length * rest.prod := by
      intro l
      induction l with
      | nil => simp
      | cons i l ihl =>
        rw [List.flatMap_cons, List.length_append, ihl, List.length_map, ih, List.length_cons]
        ring
    rw [combinations, h, List.length_range, List.prod_cons]

theorem setCurrentIndices_cons_unreferenced {α : Type} (refs : List String)
    (d : ParameterSpaceDimension α) (hd : refs.contains d.name = false)
    (ds : List (ParameterSpaceDimension α)) (combo : List Nat) :
    setCurrentIndices refs (d :: ds) combo
      = match setCurrentIndices refs ds combo with
        | Except.error err => Except.error err
        | Except.ok ds1 => Except.ok (d :: ds1) := by
  simp only [setCurrentIndices, hd, Bool.false_eq_true, if_false]

theorem setCurrentIndices_cons_referenced {α : Type} (refs : List String)
    (d : ParameterSpaceDimension α) (hd : refs.contains d.name = true)
    (ds : List (ParameterSpaceDimension α)) (i : Nat) (more : List Nat) :
    setCurrentIndices refs (d :: ds) (i :: more)
      = match d.setCurrentIndex i with
        | Except.error err => Except.error err
        | Except.ok d1 =>
          match setCurrentIndices refs ds more with
          | Except.error err => Except.error err
          | Except.ok ds1 => Except.ok (d1 :: ds1) := by
  simp only [setCurrentIndices, hd, if_true]

/-- Setting the current indices does not see a dimension that is not
referenced: it stays where it is in the list, as it is. -/
theorem setCurrentIndices_unreferenced {α : Type} (refs : List String)
    (e : ParameterSpaceDimension α) (he : refs.contains e.name = false)
    (pre post : List (ParameterSpaceDimension α)) :
    ∀ combo : List Nat,
      setCurrentIndices refs (pre ++ e :: post) combo
        = match setCurrentIndices refs (pre ++ post) combo with
          | Except.error err => Except.error err
          | Except.ok dims => Except.ok (dims.take pre.length ++ e :: dims.drop pre.length) := by
  induction pre with
  | nil =>
    intro combo
    rw [List.nil_append, List.nil_append, setCurrentIndices_cons_unreferenced refs e he]
    rfl
  | cons d pre ih =>
    intro combo
    rw [List.cons_append, List.cons_append]
    cases hd : refs.contains d.name with
    | true =>
      cases combo with
      | nil => simp only [setCurrentIndices, hd, if_true]
      | cons i more =>
        rw [setCurrentIndices_cons_referenced refs d hd, setCurrentIndices_cons_referenced refs d hd,
          ih more]
        cases d.setCurrentIndex i with
        | error err => rfl
        | ok d1 =>
          cases setCurrentIndices refs (pre ++ post) more with
          | error err => rfl
          | ok dims => rfl
    | false =>
      rw [setCurrentIndices_cons_unreferenced refs d hd,
        setCurrentIndices_cons_unreferenced refs d hd, ih combo]
      cases setCurrentIndices refs (pre ++ post) combo with
      | error err => rfl
      | ok dims => rfl

theorem splitNames_ne_nil (s : List Char) : splitNames s ≠ [] := by
  induction s with
  | nil => simp [splitNames]
  | cons c s ih =>
    by_cases hc : c = ','
    · simp [splitNames, hc]
    · cases h : splitNames s with
      | nil => exact absurd h ih
      | cons name names => simp [splitNames, hc, h]

theorem tokenNames_ne_nil (token : List Char) : tokenNames token ≠ [] := by
  simp [tokenNames, splitNames_ne_nil]

/-- Looking up a name skips a dimension of another name. -/
theorem getDimension_unreferenced {α : Type} (ps1 ps2 : ParameterSpace α)
    (a b : List (ParameterSpaceDimension α)) (e : ParameterSpaceDimension α)
    (hmap : ps1.parameterNameMap = ps2.parameterNameMap)
    (h1 : ps1.dimensions = a ++ e :: b) (h2 : ps2.dimensions = a ++ b)
    (name : String) (hname : e.name ≠ ps2.canonicalName name) :
    ps1.getDimension name = ps2.getDimension name := by
  have hcanon : ps1.canonicalName name = ps2.canonicalName name := by
    simp only [ParameterSpace.canonicalName, hmap]
  simp only [ParameterSpace.getDimension, h1, h2, hcanon, List.find?_append, List.find?_cons,
    hname, decide_False]

theorem getDimensions_unreferenced {α : Type} (ps1 ps2 : ParameterSpace α)
    (a b : List (ParameterSpaceDimension α)) (e : ParameterSpaceDimension α)
    (hmap : ps1.parameterNameMap = ps2.parameterNameMap)
    (h1 : ps1.dimensions = a ++ e :: b) (h2 : ps2.dimensions = a ++ b)
    (names : List String) (hnames : ∀ n ∈ names, e.name ≠ ps2.canonicalName n) :
    ps1.getDimensions names = ps2.getDimensions names := by
  induction names with
  | nil => rfl
  | cons n rest ih =>
    simp only [ParameterSpace.getDimensions,
      getDimension_unreferenced ps1 ps2 a b e hmap h1 h2 n (hnames n (List.mem_cons_self _ _)),
      ih (fun m hm => hnames m (List.mem_cons_of_mem _ hm))]

theorem resolveToken_unreferenced {α : Type} (ps1 ps2 : ParameterSpace α)
    (a b : List (ParameterSpaceDimension α)) (e : ParameterSpaceDimension α)
    (hmap : ps1.parameterNameMap = ps2.parameterNameMap)
    (hfmt : ps1.formatValue = ps2.formatValue)
    (h1 : ps1.dimensions = a ++ e :: b) (h2 : ps2.dimensions = a ++ b)
    (token : List Char) (hnames : ∀ n ∈ tokenNames token, e.name ≠ ps2.canonicalName n) :
    ps1.resolveToken token = ps2.resolveToken token := by
  have hfmtTok : ∀ (d : ParameterSpaceDimension α) (r : RepresentationType),
      ps1.formatToken d r = ps2.formatToken d r := by
    intro d r
    simp only [ParameterSpace.formatToken, hfmt]
  have hcommon : ∀ names : List String, names ≠ [] →
      (∀ n ∈ names, e.name ≠ ps2.canonicalName n) →
      ps1.getCommonId names = ps2.getCommonId names := by
    intro names hne hn
    have hempty : names.isEmpty = false := by
      cases names with
      | nil => exact absurd rfl hne
      | cons _ _ => rfl
    simp only [ParameterSpace.getCommonId, ParameterSpace.commonIdDimensions, hempty,
      Bool.false_eq_true, if_false,
      getDimensions_unreferenced ps1 ps2 a b e hmap h1 h2 names hn]
  unfold ParameterSpace.resolveToken
  cases hN : tokenNames token with
  | nil => exact absurd hN (tokenNames_ne_nil token)
  | cons n rest =>
    rw [hN] at hnames
    cases rest with
    | nil =>
      simp only [getDimension_unreferenced ps1 ps2 a b e hmap h1 h2 n
        (hnames n (List.mem_cons_self _ _)), hfmtTok]
    | cons m more =>
      exact hcommon (n :: m :: more) (List.cons_ne_nil _ _) hnames

theorem resolveParts_unreferenced {α : Type} (ps1 ps2 : ParameterSpace α)
    (a b : List (ParameterSpaceDimension α)) (e : ParameterSpaceDimension α)
    (hmap : ps1.parameterNameMap = ps2.parameterNameMap)
    (hfmt : ps1.formatValue = ps2.formatValue)
    (h1 : ps1.dimensions = a ++ e :: b) (h2 : ps2.dimensions = a ++ b)
    (parts : List TemplatePart) (hnames : ∀ n ∈ partNames parts, e.name ≠ ps2.canonicalName n) :
    ps1.resolveParts parts = ps2.resolveParts parts := by
  induction parts with
  | nil => rfl
  | cons part rest ih =>
    cases part with
    | text chars =>
      simp only [ParameterSpace.resolveParts, ParameterSpace.resolvePart,
        ih (fun n hn => hnames n (by simpa [partNames] using hn))]
    | token chars =>
      have htok := resolveToken_unreferenced ps1 ps2 a b e hmap hfmt h1 h2 chars
        (fun n hn => hnames n (by simp [partNames, hn]))
      simp only [ParameterSpace.resolveParts, ParameterSpace.resolvePart, htok,
        ih (fun n hn => hnames n (by simp [partNames, hn]))]

/-- C14: `runningPaths()` has one entry per combination of raw domain
positions of the dimensions that the path template references, so its length
is the product of their raw sizes; and a dimension `e` that the template does
not reference, registered at any place among the others, does not change the
result. -/
theorem ParameterSpace.runningPaths_product_of_referenced_sizes {α : Type}
    (ps : ParameterSpace α) (pre post : List (ParameterSpaceDimension α))
    (e : ParameterSpaceDimension α) (hps : ps.dimensions = pre ++ post)
    (he : ps.referencedNames.contains e.name = false) :
    ps.runningPaths.length
      = ((ps.dimensions.filter (fun d => ps.referencedNames.contains d.name)).map
          (fun d => d.size)).prod ∧
    ({ ps with dimensions := pre ++ e :: post } : ParameterSpace α).runningPaths
      = ps.runningPaths := by
  constructor
  · simp only [ParameterSpace.runningPaths, List.length_map, length_combinations]
  · have hrefs : ({ ps with dimensions := pre ++ e :: post } : ParameterSpace α).referencedNames
        = ps.referencedNames := rfl
    have hname : ∀ n ∈ partNames (scanTemplate ps.currentPathTemplate.toList false false []),
        e.name ≠ ps.canonicalName n := by
      intro n hn heq
      have hmem : e.name ∈ ps.referencedNames := by
        rw [heq]
        exact List.mem_map_of_mem _ hn
      have : ps.referencedNames.contains e.name = true := List.elem_iff.mpr hmem
      rw [he] at this
      exact Bool.noConfusion this
    unfold ParameterSpace.runningPaths
    rw [hrefs]
    have hfilter : (pre ++ e :: post).filter (fun d => ps.referencedNames.contains d.name)
        = ps.dimensions.filter (fun d => ps.referencedNames.contains d.name) := by
      rw [hps, List.filter_append, List.filter_append,
        List.filter_cons_of_neg (by simp only [he]; exact Bool.false_ne_true)]
    show List.map _ (combinations (List.map _ (List.filter _ (pre ++ e :: post)))) = _
    rw [hfilter]
    apply List.map_congr_left
    intro combo _
    show (match setCurrentIndices ps.referencedNames (pre ++ e :: post) combo with
      | Except.error err => Except.error err
      | Except.ok dims => _) = _
    rw [setCurrentIndices_unreferenced ps.referencedNames e he pre post combo, ← hps]
    cases setCurrentIndices ps.referencedNames ps.dimensions combo with
    | error err => rfl
    | ok dims =>
      exact resolveParts_unreferenced
        { ps with dimensions := dims.take pre.length ++ e :: dims.drop pre.length }
        { ps with dimensions := dims } (dims.take pre.length) (dims.drop pre.length) e rfl rfl
        rfl (List.take_append_drop _ _).symm _ hname

/-- The theorem above on the space of TEST(ParameterSpace, RunningPaths): the
template references `dim1` (four values) and `dim2` (five values) and gives 20
paths, with or without `dim3` (six values). -/
theorem ParameterSpace.runningPaths_product_of_referenced_sizes_witness :
    (demoRunningSpaceOf [demoRunningDim1, demoRunningDim2]).dimensions
      = [demoRunningDim1, demoRunningDim2] ++ [] ∧
    (demoRunningSpaceOf [demoRunningDim1, demoRunningDim2]).referencedNames.contains
      demoRunningDim3.name = false ∧
    demoRunningSpace.runningPaths.length = 20 ∧
    (demoRunningSpaceOf [demoRunningDim1, demoRunningDim2]).runningPaths.length = 4 * 5 ∧
    demoRunningSpace.runningPaths
      = (demoRunningSpaceOf [demoRunningDim1, demoRunningDim2]).runningPaths :=
  ⟨rfl, by decide, by decide, by decide,
    (ParameterSpace.runningPaths_product_of_referenced_sizes
      (demoRunningSpaceOf [demoRunningDim1, demoRunningDim2])
      [demoRunningDim1, demoRunningDim2] [] demoRunningDim3 rfl (by decide)).2⟩

/-! ## The claims about re-registration and about setting ids -/

/-- Registering among dimensions of which one has the name of `dim`: the
first of them, at position `k`, receives the configuration of `dim` and every
other position keeps its dimension. -/
theorem registerIn_existing {α : Type} [DecidableEq α] (dim : ParameterSpaceDimension α)
    (dims : List (ParameterSpaceDimension α)) (hex : ∃ d ∈ dims, d.name = dim.name) :
    ∃ original : ParameterSpaceDimension α,
      dims[(registerIn dim dims).2]? = some original ∧ original.name = dim.name ∧
      (registerIn dim dims).1[(registerIn dim dims).2]? = some (original.copyFrom dim) ∧
      (registerIn dim dims).1.length = dims.length ∧
      ∀ j : Nat, j ≠ (registerIn dim dims).2 → (registerIn dim dims).1[j]? = dims[j]? := by
  induction dims with
  | nil =>
    obtain ⟨d, hd, _⟩ := hex
    exact absurd hd (List.not_mem_nil d)
  | cons d rest ih =>
    by_cases hd : d.name = dim.name
    · refine ⟨d, ?_, hd, ?_, ?_, ?_⟩
      · simp [registerIn, hd]
      · simp [registerIn, hd]
      · simp [registerIn, hd]
      · intro j hj
        cases j with
        | zero => simp [registerIn, hd] at hj
        | succ j => simp [registerIn, hd]
    · have hex' : ∃ x ∈ rest, x.name = dim.name := by
        obtain ⟨x, hx, hname⟩ := hex
        rcases List.mem_cons.mp hx with h | h
        · exact absurd (h ▸ hname) hd
        · exact ⟨x, h, hname⟩
      obtain ⟨original, h1, h2, h3, h4, h5⟩ := ih hex'
      refine ⟨original, ?_, h2, ?_, ?_, ?_⟩
      · simpa [registerIn, hd] using h1
      · simpa [registerIn, hd] using h3
      · simp [registerIn, hd, h4]
      · intro j hj
        cases j with
        | zero => simp [registerIn, hd]
        | succ j =>
          have hj' : j ≠ (registerIn dim rest).2 := by
            intro h
            apply hj
            simp [registerIn, hd, h]
          simpa [registerIn, hd] using h5 j hj'

/-- C15: registering a dimension under a name that is already registered
returns the identity (position in the space) of the originally registered
dimension `original`, which stays at that position; afterwards the dimension
there has the representation kind, the size and the ids of the newly
supplied dimension (and still its own name), and every other registered
dimension is as before. -/
theorem ParameterSpace.registerDimension_existing_name {α : Type} [DecidableEq α]
    (ps : ParameterSpace α) (dim : ParameterSpaceDimension α)
    (hex : ∃ d ∈ ps.dimensions, d.name = dim.name) :
    ∃ original updated : ParameterSpaceDimension α,
      ps.dimensions[(ps.registerDimension dim).2]? = some original ∧
      original.name = dim.name ∧
      (ps.registerDimension dim).1.dimensions[(ps.registerDimension dim).2]? = some updated ∧
      updated.name = original.name ∧
      updated.representationType = dim.representationType ∧
      updated.size = dim.size ∧
      updated.getSpaceIds = dim.getSpaceIds ∧
      (ps.registerDimension dim).1.dimensions.length = ps.dimensions.length ∧
      ∀ j : Nat, j ≠ (ps.registerDimension dim).2 →
        (ps.registerDimension dim).1.dimensions[j]? = ps.dimensions[j]? := by
  obtain ⟨original, h1, h2, h3, h4, h5⟩ := registerIn_existing dim ps.dimensions hex
  exact ⟨original, original.copyFrom dim, h1, h2, h3, rfl, rfl, rfl, rfl, h4, h5⟩

/-- The theorem above on TEST(ParameterSpace, DimensionReregister): `dim1`
(VALUE, three values, no ids) is registered at position 0; registering
`newDim` returns position 0, where the dimension then has representation ID,
size 4 and the ids A, B, C, C, E (lines 94-99 of the test). -/
theorem ParameterSpace.registerDimension_existing_name_witness :
    (∃ d ∈ demoRegisterSpace.dimensions, d.name = demoNewDim.name) ∧
    (∃ original updated : ParameterSpaceDimension Int,
      demoRegisterSpace.dimensions[(demoRegisterSpace.registerDimension demoNewDim).2]?
        = some original ∧
      original.name = demoNewDim.name ∧
      (demoRegisterSpace.registerDimension demoNewDim).1.dimensions[
          (demoRegisterSpace.registerDimension demoNewDim).2]? = some updated ∧
      updated.name = original.name ∧
      updated.representationType = demoNewDim.representationType ∧
      updated.size = demoNewDim.size ∧
      updated.getSpaceIds = demoNewDim.getSpaceIds ∧
      (demoRegisterSpace.registerDimension demoNewDim).1.dimensions.length
        = demoRegisterSpace.dimensions.length ∧
      ∀ j : Nat, j ≠ (demoRegisterSpace.registerDimension demoNewDim).2 →
        (demoRegisterSpace.registerDimension demoNewDim).1.dimensions[j]?
          = demoRegisterSpace.dimensions[j]?) ∧
    (demoRegisterSpace.registerDimension demoNewDim).2 = 0 ∧
    demoRegisterSpace.dimensions.map
        (fun d => (d.representationType, d.size, d.getSpaceIds))
      = [(RepresentationType.VALUE, 3, [])] ∧
    (demoRegisterSpace.registerDimension demoNewDim).1.dimensions.map
        (fun d => (d.representationType, d.size, d.getSpaceIds))
      = [(RepresentationType.ID, 4, ["A", "B", "C", "C", "E"])] :=
  ⟨⟨demoRegisteredDim, by decide, by decide⟩,
    ParameterSpace.registerDimension_existing_name demoRegisterSpace demoNewDim
      ⟨demoRegisteredDim, by decide, by decide⟩,
    by decide, by decide, by decide⟩

/-- C16, as amended: setting a dimension's ids succeeds for a list of any
length: the ids are stored as given and nothing else of the dimension
changes; no ShapeMismatch is reported. -/
theorem ParameterSpaceDimension.setSpaceIds_stores_any_length {α : Type}
    (d : ParameterSpaceDimension α) (ids : List String) :
    ∃ updated : ParameterSpaceDimension α,
      d.setSpaceIds ids = Except.ok updated ∧
      updated.getSpaceIds = ids ∧
      updated.name = d.name ∧ updated.domain = d.domain ∧ updated.size = d.size ∧
      updated.groups = d.groups ∧ updated.currentGroupIndex = d.currentGroupIndex ∧
      updated.representationType = d.representationType ∧
      updated.spacePrefix = d.spacePrefix :=
  ⟨{ d with ids := ids }, rfl, rfl, rfl, rfl, rfl, rfl, rfl, rfl, rfl⟩

/-- C16, as stated, fails on TEST(ParameterSpace, DimensionReregister), lines
87-99: five ids are set on a dimension of four values; the call does not fail
with ShapeMismatch, the dimension changes, and the test reads the five ids
back after the registration, where the words of the specification give
ShapeMismatch and keep the dimension without ids. -/
theorem ParameterSpaceDimension.setSpaceIds_accepts_length_mismatch :
    demoFourValues.size = 4 ∧
    demoFourValues.getSpaceIds = [] ∧
    demoFourValues.setSpaceIds ["A", "B", "C", "C", "E"] = Except.ok demoNewDim ∧
    demoFourValues.setSpaceIds ["A", "B", "C", "C", "E"]
      ≠ Except.error SpaceError.ShapeMismatch ∧
    demoNewDim ≠ demoFourValues ∧
    demoNewDim.getSpaceIds.length ≠ demoNewDim.size ∧
    (demoRegisterSpace.registerDimension demoNewDim).1.dimensions.map
        (fun d => (d.size, d.getSpaceIds))
      = [(4, ["A", "B", "C", "C", "E"])] ∧
    demoFourValues.setSpaceIds_spec ["A", "B", "C", "C", "E"]
      = Except.error SpaceError.ShapeMismatch := by
  decide

/-! ## The claim about `ignoreFail` -/

theorem Member.process_setIgnoreFail (rt : AsyncRuntime σ) (hrt : rt.ignoresIgnoreFail)
    (m : Member σ) (flag : Bool) (f : Bool) (w : World σ) :
    (m.setIgnoreFail flag).process rt f w = m.process rt f w := by
  cases m with
  | direct p => rfl
  | wrapped a =>
    simp only [Member.setIgnoreFail, Member.process, (hrt a flag).1]

theorem Member.waitUntilDone_setIgnoreFail (rt : AsyncRuntime σ) (hrt : rt.ignoresIgnoreFail)
    (m : Member σ) (flag : Bool) (w : World σ) :
    (m.setIgnoreFail flag).waitUntilDone rt w = m.waitUntilDone rt w := by
  cases m with
  | direct p => rfl
  | wrapped a =>
    simp only [Member.setIgnoreFail, Member.waitUntilDone, (hrt a flag).2]

theorem serialLoop_setIgnoreFail (rt : AsyncRuntime σ) (hrt : rt.ignoresIgnoreFail)
    (memberFlag : Nat → Bool) (f : Bool) (ms : List (Member σ)) :
    ∀ (ret : Bool) (w : World σ),
      serialLoop rt f (ms.map (fun m => m.setIgnoreFail (memberFlag m.addr))) ret w
        = serialLoop rt f ms ret w := by
  induction ms with
  | nil => intro ret w; rfl
  | cons m rest ih =>
    intro ret w
    simp only [List.map_cons, serialLoop, Member.process_setIgnoreFail rt hrt, ih]

theorem startLoop_setIgnoreFail (rt : AsyncRuntime σ) (hrt : rt.ignoresIgnoreFail)
    (memberFlag : Nat → Bool) (f : Bool) (ms : List (Member σ)) :
    ∀ (w : World σ),
      startLoop rt f (ms.map (fun m => m.setIgnoreFail (memberFlag m.addr))) w
        = startLoop rt f ms w := by
  induction ms with
  | nil => intro w; rfl
  | cons m rest ih =>
    intro w
    simp only [List.map_cons, startLoop, Member.process_setIgnoreFail rt hrt, ih]

theorem waitLoop_setIgnoreFail (rt : AsyncRuntime σ) (hrt : rt.ignoresIgnoreFail)
    (memberFlag : Nat → Bool) (ms : List (Member σ)) :
    ∀ (ret : Bool) (w : World σ),
      waitLoop rt (ms.map (fun m => m.setIgnoreFail (memberFlag m.addr))) ret w
        = waitLoop rt ms ret w := by
  induction ms with
  | nil => intro ret w; rfl
  | cons m rest ih =>
    intro ret w
    simp only [List.map_cons, waitLoop, Member.waitUntilDone_setIgnoreFail rt hrt, ih]

/-- C19: `ComputationChain::process` never consults `ignoreFail`: two runs of
a chain that differ only in the `ignoreFail` flags of the chain and of its
members' units (the members behaving alike) give the same result: the same
calls in the same order in the log, the same value returned and passed to the
done callbacks, the same final state. -/
theorem ComputationChain.process_ignores_ignoreFail (rt : AsyncRuntime σ)
    (hrt : rt.ignoresIgnoreFail) (c : ComputationChain σ) (chainFlag1 chainFlag2 : Bool)
    (memberFlag1 memberFlag2 : Nat → Bool) (forceRecompute : Bool) (w : World σ) :
    (c.setIgnoreFail chainFlag1 memberFlag1).process rt forceRecompute w
      = (c.setIgnoreFail chainFlag2 memberFlag2).process rt forceRecompute w := by
  have h : ∀ (chainFlag : Bool) (memberFlag : Nat → Bool),
      (c.setIgnoreFail chainFlag memberFlag).process rt forceRecompute w
        = c.process rt forceRecompute w := by
    intro chainFlag memberFlag
    cases hm : c.mType with
    | PROCESS_SERIAL =>
      simp only [ComputationChain.process, ComputationChain.setIgnoreFail, hm,
        serialLoop_setIgnoreFail rt hrt, ProcessorBase.callDoneCallbacks]
    | PROCESS_ASYNC =>
      simp only [ComputationChain.process, ComputationChain.setIgnoreFail, hm,
        startLoop_setIgnoreFail rt hrt, waitLoop_setIgnoreFail rt hrt,
        ProcessorBase.callDoneCallbacks]
  rw [h, h]

/-- The theorem above on the serial chain of three units of which the second
fails: with `ignoreFail` true on every unit and on the chain the run is the
run with `ignoreFail` false everywhere, and the aggregate result is false. -/
theorem ComputationChain.process_ignores_ignoreFail_witness :
    demoRuntime.ignoresIgnoreFail ∧
    ((demoChain ChainType.PROCESS_SERIAL).setIgnoreFail true (fun _ => true)).process
        demoRuntime false demoWorld
      = ((demoChain ChainType.PROCESS_SERIAL).setIgnoreFail false (fun _ => false)).process
        demoRuntime false demoWorld ∧
    (((demoChain ChainType.PROCESS_SERIAL).setIgnoreFail true (fun _ => true)).process
        demoRuntime false demoWorld).map (fun r => r.1) = some false :=
  ⟨fun _ _ => ⟨rfl, rfl⟩,
    ComputationChain.process_ignores_ignoreFail demoRuntime (fun _ _ => ⟨rfl, rfl⟩)
      (demoChain ChainType.PROCESS_SERIAL) true false (fun _ => true) (fun _ => false) false
      demoWorld,
    by decide⟩

/-! ## The claim about nested chains -/

theorem serialLoop_ret (rt : AsyncRuntime σ) (f : Bool) (ms : List (Member σ)) :
    ∀ (ret : Bool) (w : World σ),
      serialLoop rt f ms ret w
        = (ret && (serialLoop rt f ms true w).1, (serialLoop rt f ms true w).2) := by
  induction ms with
  | nil => intro ret w; simp [serialLoop]
  | cons m rest ih =>
    intro ret w
    simp only [serialLoop, Bool.true_and]
    rw [ih (ret && (m.process rt f w).1), ih (m.process rt f w).1, Bool.and_assoc]

theorem serialLoop_append (rt : AsyncRuntime σ) (f : Bool) (ms1 ms2 : List (Member σ)) :
    ∀ (ret : Bool) (w : World σ),
      serialLoop rt f (ms1 ++ ms2) ret w
        = serialLoop rt f ms2 (serialLoop rt f ms1 ret w).1 (serialLoop rt f ms1 ret w).2 := by
  induction ms1 with
  | nil => intro ret w; rfl
  | cons m rest ih =>
    intro ret w
    exact ih (ret && (m.process rt f w).1) (m.process rt f w).2

theorem callDoneCallbacks_inert (base : ProcessorBase σ) (hinert : base.doneCallbacksInert)
    (result : Bool) (w : World σ) :
    (base.callDoneCallbacks result w).sameCalls w := by
  have h : ∀ (cbs : List (Bool → σ → σ)), (∀ cb ∈ cbs, ∀ (r : Bool) (s : σ), cb r s = s) →
      ∀ (k : Nat) (w : World σ), (doneCallbacksFrom result cbs k w).sameCalls w := by
    intro cbs
    induction cbs with
    | nil => intro _ k w; exact ⟨rfl, rfl⟩
    | cons cb rest ih =>
      intro hcbs k w
      have hrest := ih (fun c hc => hcbs c (List.mem_cons_of_mem _ hc)) (k + 1)
        { state := cb result w.state, log := w.log ++ [Event.doneCallback k result] }
      refine ⟨?_, ?_⟩
      · rw [doneCallbacksFrom, hrest.1]
        exact hcbs cb (List.mem_cons_self _ _) result w.state
      · rw [doneCallbacksFrom, hrest.2]
        simp [Event.isMemberProcess]
  exact h base.mDoneCallbacks hinert 0 w

theorem Processor.call_sameCalls (p : Processor σ) (f : Bool) (w1 w2 : World σ)
    (h : w1.sameCalls w2) :
    (p.call f w1).1 = (p.call f w2).1 ∧ (p.call f w1).2.sameCalls (p.call f w2).2 := by
  obtain ⟨hs, hl⟩ := h
  refine ⟨?_, ?_, ?_⟩
  · simp only [Processor.call, hs]
  · simp only [Processor.call, hs]
  · simp only [Processor.call, hs, List.filter_append, hl]

mutual
/-- Running a node whose chains are enabled and whose done callbacks leave the
state alone is running its units one after the other. -/
theorem nodeProcess_sameCalls (rt : AsyncRuntime σ) (f : Bool) :
    ∀ (n : Node σ), n.chainsEnabled = true → n.callbacksInert →
      ∀ (ret : Bool) (w1 w2 : World σ), w1.sameCalls w2 →
        (ret && (n.process f w1).1) = (serialLoop rt f (n.leaves.map Member.direct) ret w2).1 ∧
        (n.process f w1).2.sameCalls (serialLoop rt f (n.leaves.map Member.direct) ret w2).2
  | Node.unit p, _, _, ret, w1, w2, hw => by
    have h := Processor.call_sameCalls p f w1 w2 hw
    simp only [Node.process, Node.leaves, List.map_cons, List.map_nil, serialLoop,
      Member.process]
    exact ⟨by rw [h.1], h.2⟩
  | Node.chain base members, hen, hinert, ret, w1, w2, hw => by
    simp only [Node.chainsEnabled, Bool.and_eq_true] at hen
    simp only [Node.callbacksInert] at hinert
    have h := nodeSerialLoop_sameCalls rt f members hen.2 hinert.2 true w1 w2 hw
    rw [serialLoop_ret rt f _ ret w2]
    simp only [Node.process, hen.1, Bool.not_true, Bool.false_eq_true, if_false, Node.leaves]
    refine ⟨by rw [h.1], ?_⟩
    have hcb := callDoneCallbacks_inert base hinert.1
      (Node.serialLoop members f true w1).1 (Node.serialLoop members f true w1).2
    exact ⟨hcb.1.trans h.2.1, hcb.2.trans h.2.2⟩
/-- The same for the loop over a list of nodes. -/
theorem nodeSerialLoop_sameCalls (rt : AsyncRuntime σ) (f : Bool) :
    ∀ (ms : List (Node σ)), Node.chainsEnabledList ms = true → Node.callbacksInertList ms →
      ∀ (ret : Bool) (w1 w2 : World σ), w1.sameCalls w2 →
        (Node.serialLoop ms f ret w1).1
          = (serialLoop rt f ((Node.leavesOfList ms).map Member.direct) ret w2).1 ∧
        (Node.serialLoop ms f ret w1).2.sameCalls
          (serialLoop rt f ((Node.leavesOfList ms).map Member.direct) ret w2).2
  | [], _, _, ret, w1, w2, hw => by
    rw [Node.serialLoop, Node.leavesOfList, List.map_nil, serialLoop]
    exact ⟨rfl, hw⟩
  | n :: rest, hen, hinert, ret, w1, w2, hw => by
    simp only [Node.chainsEnabledList, Bool.and_eq_true] at hen
    simp only [Node.callbacksInertList] at hinert
    have hn := nodeProcess_sameCalls rt f n hen.1 hinert.1 ret w1 w2 hw
    have hrest := nodeSerialLoop_sameCalls rt f rest hen.2 hinert.2
      (ret && (n.process f w1).1) (n.process f w1).2
      (serialLoop rt f (n.leaves.map Member.direct) ret w2).2 hn.2
    simp only [Node.serialLoop, Node.leavesOfList, List.map_append, serialLoop_append]
    rw [← hn.1]
    exact hrest
end

theorem callDoneCallbacks_sameCalls (base : ProcessorBase σ) (result : Bool)
    (w1 w2 : World σ) (h : w1.sameCalls w2) :
    (base.callDoneCallbacks result w1).sameCalls (base.callDoneCallbacks result w2) := by
  have hgen : ∀ (cbs : List (Bool → σ → σ)) (k : Nat) (w1 w2 : World σ), w1.sameCalls w2 →
      (doneCallbacksFrom result cbs k w1).sameCalls (doneCallbacksFrom result cbs k w2) := by
    intro cbs
    induction cbs with
    | nil => intro k w1 w2 h; exact h
    | cons cb rest ih =>
      intro k w1 w2 h
      rw [doneCallbacksFrom, doneCallbacksFrom]
      apply ih
      refine ⟨by rw [h.1], ?_⟩
      simp only [List.filter_append, h.2]
  exact hgen base.mDoneCallbacks 0 w1 w2 h

theorem filter_processEvents (f : Bool) (ms : List (Member σ)) (rets : List Bool) :
    (List.zipWith (fun m r => m.processEvent f r) ms rets).filter Event.isMemberProcess
      = List.zipWith (fun m r => m.processEvent f r) ms rets := by
  rw [List.filter_eq_self]
  intro e he
  obtain ⟨m, r, _, rfl⟩ := mem_processEvents he
  cases m <;> rfl

theorem filter_doneEvents (result : Bool) (n : Nat) :
    ((List.range n).map (fun i => Event.doneCallback i result)).filter Event.isMemberProcess
      = [] := by
  rw [List.filter_eq_nil_iff]
  intro e he
  obtain ⟨i, _, rfl⟩ := List.mem_map.mp he
  simp [Event.isMemberProcess]

/-- C18, as amended: for every enabled serial chain whose members are units or
enabled serial chains, to any depth, when the done callbacks of the nested
chains leave the shared state unchanged, `process` returns the value that the
flattened serial chain returns, ends in the same state, and calls the units
in depth-first registration order, each once and with the same
`forceRecompute`, with the results `rets` they give in the flattened chain. -/
theorem Node.process_nested_eq_flattened (rt : AsyncRuntime σ) (base : ProcessorBase σ)
    (members : List (Node σ)) (forceRecompute : Bool) (w : World σ)
    (hen : base.enabled = true) (hmem : Node.chainsEnabledList members = true)
    (hinert : Node.callbacksInertList members) :
    ∃ (w' : World σ) (rets : List Bool),
      (flattenedChain base members).process rt forceRecompute w
        = some (((Node.chain base members).process forceRecompute w).1, w') ∧
      ((Node.chain base members).process forceRecompute w).2.state = w'.state ∧
      ((Node.chain base members).process forceRecompute w).2.log.filter Event.isMemberProcess
        = w'.log.filter Event.isMemberProcess ∧
      rets.length = (Node.leavesOfList members).length ∧
      w'.log.filter Event.isMemberProcess
        = w.log.filter Event.isMemberProcess
          ++ List.zipWith (fun p r => Event.process p.addr forceRecompute r)
              (Node.leavesOfList members) rets ∧
      ((Node.chain base members).process forceRecompute w).1 = rets.all id := by
  obtain ⟨rets, w', hlen, hp, hlog⟩ :=
    process_serial_log rt (flattenedChain base members) forceRecompute w hen rfl
  have hloop := nodeSerialLoop_sameCalls rt forceRecompute members hmem hinert true w w
    ⟨rfl, rfl⟩
  have hflat : (flattenedChain base members).process rt forceRecompute w
      = some ((tinc.serialLoop rt forceRecompute ((Node.leavesOfList members).map Member.direct)
            true w).1,
          base.callDoneCallbacks
            (tinc.serialLoop rt forceRecompute ((Node.leavesOfList members).map Member.direct)
              true w).1
            (tinc.serialLoop rt forceRecompute ((Node.leavesOfList members).map Member.direct)
              true w).2) := by
    simp only [ComputationChain.process, flattenedChain, hen, Bool.not_true,
      Bool.false_eq_true, if_false]
  have hnest : (Node.chain base members).process forceRecompute w
      = ((Node.serialLoop members forceRecompute true w).1,
         base.callDoneCallbacks (Node.serialLoop members forceRecompute true w).1
           (Node.serialLoop members forceRecompute true w).2) := by
    simp only [Node.process, hen, Bool.not_true, Bool.false_eq_true, if_false]
  have hpair := Option.some.inj (hp.symm.trans hflat)
  have hret : rets.all id
      = (tinc.serialLoop rt forceRecompute ((Node.leavesOfList members).map Member.direct)
          true w).1 := congrArg Prod.fst hpair
  have hw' : w' = base.callDoneCallbacks
      (tinc.serialLoop rt forceRecompute ((Node.leavesOfList members).map Member.direct) true w).1
      (tinc.serialLoop rt forceRecompute ((Node.leavesOfList members).map Member.direct) true w).2 :=
    congrArg Prod.snd hpair
  have hsame := callDoneCallbacks_sameCalls base
    (Node.serialLoop members forceRecompute true w).1 _ _ hloop.2
  rw [← hloop.1] at hw'
  rw [← hw'] at hsame
  refine ⟨w', rets, ?_, ?_, ?_, ?_, ?_, ?_⟩
  · rw [hp, hnest, hloop.1, ← hret]
  · rw [hnest]; exact hsame.1
  · rw [hnest]; exact hsame.2
  · simpa [flattenedChain] using hlen
  · rw [hlog, List.filter_append, List.filter_append, filter_processEvents, filter_doneEvents,
      List.append_nil]
    simp only [flattenedChain, List.zipWith_map_left, Member.processEvent]
  · rw [hnest, hloop.1, ← hret]

/-- The theorem above on a chain of a unit, a nested chain of two units without
callbacks, and a unit: the nested run and the flattened chain both call the
units 1, 2, 3, 4 in this order and return false, the unit 2 failing. -/
theorem Node.process_nested_eq_flattened_witness :
    (demoEmpty ChainType.PROCESS_SERIAL).toProcessorBase.enabled = true ∧
    Node.chainsEnabledList demoPlainNestedMembers = true ∧
    Node.callbacksInertList demoPlainNestedMembers ∧
    (∃ (w' : World Nat) (rets : List Bool),
      (flattenedChain (demoEmpty ChainType.PROCESS_SERIAL).toProcessorBase
          demoPlainNestedMembers).process demoRuntime true demoWorld
        = some (((Node.chain (demoEmpty ChainType.PROCESS_SERIAL).toProcessorBase
            demoPlainNestedMembers).process true demoWorld).1, w') ∧
      ((Node.chain (demoEmpty ChainType.PROCESS_SERIAL).toProcessorBase
          demoPlainNestedMembers).process true demoWorld).2.state = w'.state ∧
      ((Node.chain (demoEmpty ChainType.PROCESS_SERIAL).toProcessorBase
          demoPlainNestedMembers).process true demoWorld).2.log.filter Event.isMemberProcess
        = w'.log.filter Event.isMemberProcess ∧
      rets.length = (Node.leavesOfList demoPlainNestedMembers).length ∧
      w'.log.filter Event.isMemberProcess
        = demoWorld.log.filter Event.isMemberProcess
          ++ List.zipWith (fun p r => Event.process p.addr true r)
              (Node.leavesOfList demoPlainNestedMembers) rets ∧
      ((Node.chain (demoEmpty ChainType.PROCESS_SERIAL).toProcessorBase
          demoPlainNestedMembers).process true demoWorld).1 = rets.all id) ∧
    ((Node.chain (demoEmpty ChainType.PROCESS_SERIAL).toProcessorBase
        demoPlainNestedMembers).process true demoWorld).2.log
      = [Event.process 1 true true, Event.process 2 true false, Event.process 3 true true,
         Event.process 4 true true, Event.doneCallback 0 false] :=
  ⟨rfl, rfl,
    ⟨trivial, ⟨fun _ h => absurd h (List.not_mem_nil _), trivial, trivial, trivial⟩, trivial,
      trivial⟩,
    Node.process_nested_eq_flattened demoRuntime
      (demoEmpty ChainType.PROCESS_SERIAL).toProcessorBase demoPlainNestedMembers true demoWorld
      rfl rfl
      ⟨trivial, ⟨fun _ h => absurd h (List.not_mem_nil _), trivial, trivial, trivial⟩, trivial,
        trivial⟩,
    by decide⟩

/-- C18, as stated, fails when a nested chain has a done callback that changes
the state: the nested chain's callback adds 100 to the counter after its unit
1 has run, so the unit 2, which needs the counter below 100, fails and the
outer chain returns false; the flattened chain of the units 1 and 2 returns
true. -/
theorem Node.process_nested_differs_from_flattened :
    Node.chainsEnabledList demoNestedMembers = true ∧
    (Node.leavesOfList demoNestedMembers).map (fun p => p.addr) = [1, 2] ∧
    ((Node.chain {} demoNestedMembers).process true demoWorld).1 = false ∧
    ((Node.chain {} demoNestedMembers).process true demoWorld).2.log
      = [Event.process 1 true true, Event.doneCallback 0 true, Event.process 2 true false] ∧
    ((flattenedChain {} demoNestedMembers).process demoRuntime true demoWorld).map
        (fun r => (r.1, r.2.log))
      = some (true, [Event.process 1 true true, Event.process 2 true true]) := by
  decide

/-! ## The claim about overlapping invocations -/

theorem Invocation.run_loop (rt : AsyncRuntime σ) (c : ComputationChain σ) (f : Bool)
    (ms : List (Member σ)) :
    ∀ (ret : Bool) (w : World σ),
      Invocation.run rt c f ms.length
          { entered := true, rest := ms, ret := ret, returned := false } w
        = ({ entered := true, rest := [], ret := (serialLoop rt f ms ret w).1,
             returned := false }, (serialLoop rt f ms ret w).2) := by
  induction ms with
  | nil => intro ret w; rfl
  | cons m rest ih =>
    intro ret w
    rw [List.length_cons, Invocation.run]
    exact ih (ret && (m.process rt f w).1) (m.process rt f w).2

/-- An invocation that runs alone, step by step, does what
`ComputationChain.process` does in one piece. -/
theorem Invocation.run_alone_eq_process (rt : AsyncRuntime σ) (c : ComputationChain σ)
    (f : Bool) (w : World σ) (hen : c.enabled = true)
    (hs : c.mType = ChainType.PROCESS_SERIAL) :
    c.process rt f w
      = some ((Invocation.run rt c f (c.mProcessors.length + 2) {} w).1.ret,
              (Invocation.run rt c f (c.mProcessors.length + 2) {} w).2) ∧
    (Invocation.run rt c f (c.mProcessors.length + 2) {} w).1.returned = true := by
  have h1 : Invocation.run rt c f (c.mProcessors.length + 2) {} w
      = Invocation.run rt c f (c.mProcessors.length + 1)
          { entered := true, rest := c.mProcessors, ret := true, returned := false } w := by
    rw [Invocation.run]
    simp only [Invocation.step, hen, Bool.not_true, Bool.false_eq_true, if_false,
      Bool.not_false, if_true]
  have h2 : ∀ (n : Nat) (inv : Invocation σ) (w0 : World σ),
      Invocation.run rt c f (n + 1) inv w0
        = ((Invocation.run rt c f n inv w0).1.step rt c f (Invocation.run rt c f n inv w0).2) := by
    intro n
    induction n with
    | zero => intro inv w0; rfl
    | succ n ih =>
      intro inv w0
      rw [Invocation.run, ih]
      rfl
  rw [h1, h2, Invocation.run_loop]
  simp only [Invocation.step, ComputationChain.process, hen, hs, Bool.not_true,
    Bool.false_eq_true, if_false, and_self]

/-- C17: evaluation of two overlapping invocations of `process` on the enabled
serial chain of three units.  Under the schedule 0, 0, 1, 1 the first
invocation enters and calls the unit 1; the second invocation then enters and
calls the unit 1 as well, while the first is still in flight with the units
2 and 3 to call: the log has two calls of the unit 1, made by the invocations
0 and 1, and `mProcessLock` is never held.  Processor.hpp (lines 47-53)
documents that a Processor can only run a single instance of `process()`. -/
theorem SharedRun.second_invocation_runs_member_while_first_in_flight :
    (demoChain ChainType.PROCESS_SERIAL).enabled = true ∧
    ((demoTwoInvocations.run demoRuntime (demoChain ChainType.PROCESS_SERIAL) false
        [0, 0]).invocations.map (fun inv => (inv.inFlight, inv.rest.map Member.addr)))
      = [(true, [2, 3]), (false, [])] ∧
    (demoTwoInvocations.run demoRuntime (demoChain ChainType.PROCESS_SERIAL) false
        [0, 0, 1, 1]).world.log
      = [Event.process 1 false true, Event.process 1 false true] ∧
    (demoTwoInvocations.run demoRuntime (demoChain ChainType.PROCESS_SERIAL) false
        [0, 0, 1, 1]).owners = [0, 1] ∧
    ((demoTwoInvocations.run demoRuntime (demoChain ChainType.PROCESS_SERIAL) false
        [0, 0, 1, 1]).invocations.map (fun inv => (inv.inFlight, inv.rest.map Member.addr)))
      = [(true, [2, 3]), (true, [2, 3])] ∧
    (demoTwoInvocations.run demoRuntime (demoChain ChainType.PROCESS_SERIAL) false
        [0, 0, 1, 1]).mProcessLockHeld = false := by
  decide

end tinc
